import Mathlib

/-!
Verification development for the persisted document-AST store
(`ast_store_tool.py`).  The store keeps a JSON document of the shape
`{"file_name": ..., "root": <node>}` where a node is a JSON object with
fields `section_title` (string or null), `content_summary` (string) and
`children` (array of nodes).  Operations address nodes by paths of child
indices and mutate the tree in place; exceptions are caught at the single
operation boundary and turned into `{ok: false, error}` responses.

The embedding models JSON values with the inductive type `J`, in-place
mutation by state passing (functions return the updated tree), and Python
exceptions with `Except Err`.  Early `return {"ok": False, ...}` results
inside an operation (which abort without writing) are modelled by the
`Step.reject` constructor.
-/

namespace ASTStore

/-- JSON-ish values: the dynamic dictionaries the Python tool operates on. -/
inductive J where
  | null : J
  | str (s : String) : J
  | int (n : Int) : J
  | bool (b : Bool) : J
  | arr (xs : List J) : J
  | obj (kvs : List (String × J)) : J
deriving Inhabited

/-- First value bound to `key` in an association list (Python dict lookup). -/
def lookupJ : List (String × J) → String → Option J
  | [], _ => none
  | (k, v) :: rest, key => if k == key then some v else lookupJ rest key

/-- Python `dict.get(key)`: the stored value, or `None` when the key is
absent.  JSON `null` and an absent key are therefore indistinguishable,
exactly as in the source (`node.get("children") is None` covers both). -/
def J.getPy : J → String → J
  | .obj kvs, k =>
    match lookupJ kvs k with
    | some v => v
    | none => .null
  | _, _ => .null

/-- Python `dict[key] = value`: replace the value of an existing key in
place, or add the key at the end (insertion order is preserved). -/
def setKV : List (String × J) → String → J → List (String × J)
  | [], k, v => [(k, v)]
  | (k', v') :: rest, k, v =>
    if k' == k then (k, v) :: rest else (k', v') :: setKV rest k v

def J.setField : J → String → J → J
  | .obj kvs, k, v => .obj (setKV kvs k v)
  | j, _, _ => j

/-- `isinstance(x, dict)`. -/
def J.isObj : J → Bool
  | .obj _ => true
  | _ => false

/-- Python truthiness of a JSON value. -/
def truthy : J → Bool
  | .null => false
  | .str s => !(s == "")
  | .int n => !(n == 0)
  | .bool b => b
  | .arr xs => !xs.isEmpty
  | .obj kvs => !kvs.isEmpty

/-- Python `a or b`. -/
def pyOr (a b : J) : J := if truthy a then a else b

/-- Python `a or b` on strings (only `""` is falsy). -/
def pyOrS (a b : String) : String := if a == "" then b else a

/-- Python `str()` of a JSON value.  Only the string case is ever exercised
by the store (summaries and titles); the rendering of lists and dicts is
abstracted to a placeholder. -/
def pyStr : J → String
  | .null => "None"
  | .str s => s
  | .int n => toString n
  | .bool b => if b then "True" else "False"
  | .arr _ => "<list>"
  | .obj _ => "<dict>"

/-- Characters removed by Python `str.strip` (ASCII whitespace; Python also
strips other Unicode whitespace, which the claims never exercise). -/
def isPySpace (c : Char) : Bool :=
  c == ' ' || c == '\t' || c == '\n' || c == '\r' || c == '\x0b' || c == '\x0c'

/-- Python `str.lstrip()`. -/
def lstripPy (s : String) : String := ⟨s.data.dropWhile isPySpace⟩

/-- Python `str.rstrip()`. -/
def rstripPy (s : String) : String := ⟨(s.data.reverse.dropWhile isPySpace).reverse⟩

/-- Python ASCII `str.lower()` (full Unicode lowering is not exercised). -/
def lowerPy (s : String) : String := s.map Char.toLower

/-- Does `q` occur in `l` as a contiguous sublist (Python `q in hay`)? -/
def subListIn (q : List Char) : List Char → Bool
  | [] => q.isEmpty
  | c :: rest => List.isPrefixOf q (c :: rest) || subListIn q rest

/-- Python substring test `q in hay`. -/
def strIn (q hay : String) : Bool := subListIn q.data hay.data

/-- Python `v == s` where `s` is known to be a `str`: equality holds only
when `v` is the same string (cross-type `==` is `False`). -/
def pyEqStr (v : J) (s : String) : Bool :=
  match v with
  | .str t => t == s
  | _ => false

/-- The exceptions raised inside the tool and caught at its boundary:
`ValueError` (malformed tree: the spec's MalformedTreeError) and
`IndexError` carrying the offending index and the children length
(the spec's PathResolutionError). -/
inductive Err where
  | valueError (msg : String) : Err
  | indexError (idx : Int) (len : Nat) : Err
deriving Inhabited

/-- `str(e)` as produced by the boundary handler. -/
def Err.toMessage : Err → String
  | .valueError m => m
  | .indexError i n => s!"Invalid path index {i}; children length is {n}."

/-- `_get_children_list`: fetch a node's `children`, materialising an empty
list (and storing it back: the returned node is the healed node) when the
field is absent or null; error when present but not a list. -/
def _get_children_list (node : J) : Except Err (List J × J) :=
  match node with
  | .obj kvs =>
    match lookupJ kvs "children" with
    | none => .ok ([], J.setField (.obj kvs) "children" (.arr []))
    | some .null => .ok ([], J.setField (.obj kvs) "children" (.arr []))
    | some (.arr xs) => .ok (xs, .obj kvs)
    | some _ => .error (.valueError "Invalid AST: 'children' must be a list.")
  | _ => .error (.valueError "AttributeError: no attribute get")

/-- The node reference returned by `_traverse`: the addressed node, its
parent and its index within the parent (both absent for the root). -/
structure _NodeRef where
  node : J
  parent : Option J
  index_in_parent : Option Int

/-- Loop body of `_traverse`: descend from `current` along `path`. -/
def _traverse_go : J → Option J → Option Int → List Int → Except Err _NodeRef
  | current, parent, ipar, [] => .ok ⟨current, parent, ipar⟩
  | current, _, _, idx :: rest =>
    match _get_children_list current with
    | .error e => .error e
    | .ok (children, healed) =>
      if idx < 0 || (children.length : Int) ≤ idx then
        .error (.indexError idx children.length)
      else
        match children[idx.toNat]? with
        | none => .error (.valueError "internal: bounds-checked index lookup failed")
        | some c =>
          if c.isObj then _traverse_go c (some healed) (some idx) rest
          else .error (.valueError "Invalid AST: node must be an object.")

/-- `_traverse`: resolve a node path against the whole AST document. -/
def _traverse (ast : J) (node_path : List Int) : Except Err _NodeRef :=
  match ast.getPy "root" with
  | .obj kvs => _traverse_go (.obj kvs) none none node_path
  | _ => .error (.valueError "Invalid AST: missing 'root' object.")

/-- Pure projection of the traversal: just the node reached from `node`
along `path` (same descent, same errors, no parent bookkeeping). -/
def getNode : J → List Int → Except Err J
  | node, [] => .ok node
  | node, idx :: rest =>
    match _get_children_list node with
    | .error e => .error e
    | .ok (children, _) =>
      if idx < 0 || (children.length : Int) ≤ idx then
        .error (.indexError idx children.length)
      else
        match children[idx.toNat]? with
        | none => .error (.valueError "internal: bounds-checked index lookup failed")
        | some c =>
          if c.isObj then getNode c rest
          else .error (.valueError "Invalid AST: node must be an object.")

/-- `getNode` lifted to the whole document (root unwrap of `_traverse`). -/
def getNodeRoot (ast : J) (node_path : List Int) : Except Err J :=
  match ast.getPy "root" with
  | .obj kvs => getNode (.obj kvs) node_path
  | _ => .error (.valueError "Invalid AST: missing 'root' object.")

/-- `_make_node`. -/
def _make_node (section_title : Option String) (content_summary : String) : J :=
  .obj [("section_title", match section_title with | some s => .str s | none => .null),
        ("content_summary", .str content_summary),
        ("children", .arr [])]

theorem _traverse_go_node_eq (path : List Int) :
    ∀ (cur : J) (par : Option J) (ip : Option Int),
      (_traverse_go cur par ip path).map _NodeRef.node = getNode cur path := by
  induction path with
  | nil => intro cur par ip; rfl
  | cons idx rest ih =>
    intro cur par ip
    simp only [_traverse_go, getNode]
    cases h : _get_children_list cur with
    | error e => rfl
    | ok p =>
      obtain ⟨children, healed⟩ := p
      by_cases hb : idx < 0 || (children.length : Int) ≤ idx
      · simp [hb, Except.map]
      · simp only [hb]
        cases hg : children[idx.toNat]? with
        | none => rfl
        | some c =>
          by_cases ho : c.isObj
          · simp [ho, ih]
          · simp [ho, Except.map]

theorem _traverse_node_eq (ast : J) (path : List Int) :
    (_traverse ast path).map _NodeRef.node = getNodeRoot ast path := by
  unfold _traverse getNodeRoot
  cases h : ast.getPy "root" with
  | obj kvs => exact _traverse_go_node_eq path _ none none
  | null => rfl
  | str s => rfl
  | int n => rfl
  | bool b => rfl
  | arr xs => rfl

/-- Outcome of the body of a mutating operation: either an early
`return {"ok": False, "error": msg}` before any write (`reject`), or a
successful mutation carrying the operation's payload (`accept`). -/
inductive Step (A : Type) where
  | reject (msg : String) : Step A
  | accept (a : A) : Step A

/-- State-passing embedding of the source's "resolve a path with
`_traverse`, then mutate the resolved node in place" pattern: descend
exactly as `_traverse` does (same healing, same bounds checks, same
errors), apply `f` to the addressed node, and rebuild the tree around
`f`'s output.  `f` returns the payload together with the mutated node. -/
def modifyAt {A : Type} (f : J → Except Err (Step (A × J))) :
    J → List Int → Except Err (Step (A × J))
  | node, [] => f node
  | node, idx :: rest =>
    match _get_children_list node with
    | .error e => .error e
    | .ok (children, healed) =>
      if idx < 0 || (children.length : Int) ≤ idx then
        .error (.indexError idx children.length)
      else
        match children[idx.toNat]? with
        | none => .error (.valueError "internal: bounds-checked index lookup failed")
        | some c =>
          if c.isObj then
            match modifyAt f c rest with
            | .error e => .error e
            | .ok (.reject m) => .ok (.reject m)
            | .ok (.accept (a, c')) =>
              .ok (.accept (a, healed.setField "children" (.arr (children.set idx.toNat c'))))
          else .error (.valueError "Invalid AST: node must be an object.")

/-- `modifyAt` lifted to the whole document (the `root` unwrap of
`_traverse`, rebuilding the document around the mutated root). -/
def modifyRoot {A : Type} (f : J → Except Err (Step (A × J))) (ast : J)
    (path : List Int) : Except Err (Step (A × J)) :=
  match ast.getPy "root" with
  | .obj kvs =>
    match modifyAt f (.obj kvs) path with
    | .error e => .error e
    | .ok (.reject m) => .ok (.reject m)
    | .ok (.accept (a, r')) => .ok (.accept (a, ast.setField "root" r'))
  | _ => .error (.valueError "Invalid AST: missing 'root' object.")

/-- The `append_child` operation body (after the dispatcher has checked
that `content_summary` is present): resolve the parent, build the new
node, insert it (bounds-checking an explicit position), and return the
new node's path. -/
def append_child_body (parent_path : List Int)
    (section_title : Option String) (content_summary : String)
    (position : Option Int) (parent : J) : Except Err (Step (List Int × J)) :=
  match _get_children_list parent with
  | .error e => .error e
  | .ok (children, healed) =>
    let new_node := _make_node section_title content_summary
    match position with
    | none =>
      .ok (.accept (parent_path ++ [(children.length : Int)],
        healed.setField "children" (.arr (children ++ [new_node]))))
    | some pos =>
      if pos < 0 || (children.length : Int) < pos then
        .ok (.reject s!"position out of range: {pos} (0..{children.length})")
      else
        .ok (.accept (parent_path ++ [pos],
          healed.setField "children" (.arr (children.insertIdx pos.toNat new_node))))

def append_child_op (ast : J) (parent_path : List Int)
    (section_title : Option String) (content_summary : String)
    (position : Option Int) : Except Err (Step (List Int × J)) :=
  modifyRoot (append_child_body parent_path section_title content_summary position)
    ast parent_path

/-- The scan predicate of `upsert_child_by_title`: non-dict children are
skipped; a dict child matches when `(child.get("section_title") or "")`
equals the given title. -/
def titleMatches (t : String) (c : J) : Bool :=
  c.isObj && pyEqStr (pyOr (c.getPy "section_title") (.str "")) t

/-- Index of the first child whose title matches, starting at `i`. -/
def findTitleIndex (t : String) : List J → Nat → Option Nat
  | [], _ => none
  | c :: rest, i =>
    if titleMatches t c then some i else findTitleIndex t rest (i + 1)

/-- The `upsert_child_by_title` operation body (after the dispatcher has
checked `section_title` non-falsy and `content_summary` present): exact
title match among the parent's direct children; no match appends a fresh
node (`created`), a match appends text to the first matching child's
summary (`appended`). -/
def upsert_body (parent_path : List Int)
    (section_title : String) (content_summary : String) (parent : J) :
    Except Err (Step ((String × List Int) × J)) :=
  match _get_children_list parent with
  | .error e => .error e
  | .ok (children, healed) =>
    match findTitleIndex section_title children 0 with
    | none =>
      .ok (.accept (("created", parent_path ++ [(children.length : Int)]),
        healed.setField "children"
          (.arr (children ++ [_make_node (some section_title) content_summary]))))
    | some i =>
      match children[i]? with
      | none => .error (.valueError "internal: scan index lookup failed")
      | some child =>
        let existing := pyStr (pyOr (child.getPy "content_summary") (.str ""))
        let child' :=
          if existing != "" then
            child.setField "content_summary"
              (.str (rstripPy existing ++ "\n" ++ lstripPy content_summary))
          else
            child.setField "content_summary" (.str content_summary)
        .ok (.accept (("appended", parent_path ++ [(i : Int)]),
          healed.setField "children" (.arr (children.set i child'))))

def upsert_child_by_title_op (ast : J) (parent_path : List Int)
    (section_title : String) (content_summary : String) :
    Except Err (Step ((String × List Int) × J)) :=
  modifyRoot (upsert_body parent_path section_title content_summary) ast parent_path

/-- The `update_node` operation body (after the dispatcher has checked
that at least one of the two fields is supplied). -/
def update_node_body (section_title content_summary : Option String)
    (node : J) : Except Err (Step (Unit × J)) :=
  let node1 :=
    match section_title with
    | some t => node.setField "section_title" (.str t)
    | none => node
  let node2 :=
    match content_summary with
    | some s => node1.setField "content_summary" (.str s)
    | none => node1
  .ok (.accept ((), node2))

def update_node_op (ast : J) (node_path : List Int)
    (section_title content_summary : Option String) :
    Except Err (Step (Unit × J)) :=
  modifyRoot (update_node_body section_title content_summary) ast node_path

/-- The `append_to_summary` operation body (after the dispatcher has
checked that `append_text` is present). -/
def append_to_summary_body (append_text : String) (node : J) :
    Except Err (Step (Unit × J)) :=
  let existing := pyStr (pyOr (node.getPy "content_summary") (.str ""))
  .ok (.accept ((),
    if existing != "" then
      node.setField "content_summary"
        (.str (rstripPy existing ++ "\n" ++ lstripPy append_text))
    else
      node.setField "content_summary" (.str append_text)))

def append_to_summary_op (ast : J) (node_path : List Int)
    (append_text : String) : Except Err (Step (Unit × J)) :=
  modifyRoot (append_to_summary_body append_text) ast node_path

theorem lookupJ_setKV_self (kvs : List (String × J)) (k : String) (v : J) :
    lookupJ (setKV kvs k v) k = some v := by
  induction kvs with
  | nil => simp [setKV, lookupJ]
  | cons hd rest ih =>
    obtain ⟨k', v'⟩ := hd
    by_cases h : k' == k
    · simp [setKV, h, lookupJ]
    · simp [setKV, h, lookupJ, ih]

theorem lookupJ_setKV_ne (kvs : List (String × J)) (k k' : String) (v : J)
    (h : k' ≠ k) : lookupJ (setKV kvs k v) k' = lookupJ kvs k' := by
  induction kvs with
  | nil => simp [setKV, lookupJ, h, Ne.symm h]
  | cons hd rest ih =>
    obtain ⟨k0, v0⟩ := hd
    by_cases h0 : k0 == k
    · have hk0 : k0 = k := by simpa using h0
      subst hk0
      simp [setKV, lookupJ, h, Ne.symm h]
    · by_cases h1 : k0 == k'
      · simp [setKV, h0, lookupJ, h1]
      · simp [setKV, h0, lookupJ, h1, ih]

theorem getPy_setField_self (j : J) (k : String) (v : J) (h : j.isObj = true) :
    (j.setField k v).getPy k = v := by
  cases j <;> simp_all [J.isObj, J.setField, J.getPy, lookupJ_setKV_self]

theorem getPy_setField_ne (j : J) (k k' : String) (v : J) (h : k' ≠ k) :
    (j.setField k v).getPy k' = j.getPy k' := by
  cases j <;> simp_all [J.setField, J.getPy, lookupJ_setKV_ne]

theorem isObj_setField (j : J) (k : String) (v : J) :
    (j.setField k v).isObj = j.isObj := by
  cases j <;> simp [J.setField, J.isObj]

theorem _gcl_healed_obj {node : J} {cs : List J} {h : J}
    (hg : _get_children_list node = .ok (cs, h)) : h.isObj = true := by
  cases node with
  | obj kvs =>
    simp only [_get_children_list] at hg
    cases hl : lookupJ kvs "children" with
    | none =>
      simp [hl] at hg
      rw [← hg.2]
      simp [J.setField, J.isObj]
    | some v =>
      cases v <;> simp [hl] at hg
      · rw [← hg.2]; simp [J.setField, J.isObj]
      · rw [← hg.2]; simp [J.isObj]
  | null => simp [_get_children_list] at hg
  | str s => simp [_get_children_list] at hg
  | int n => simp [_get_children_list] at hg
  | bool b => simp [_get_children_list] at hg
  | arr xs => simp [_get_children_list] at hg

/-- After healing, the healed node's `children` field is exactly the
returned list, so re-reading the children of the healed node succeeds. -/
theorem _gcl_healed_children {node : J} {cs : List J} {h : J}
    (hg : _get_children_list node = .ok (cs, h)) :
    _get_children_list h = .ok (cs, h) := by
  cases node with
  | obj kvs =>
    simp only [_get_children_list] at hg
    cases hl : lookupJ kvs "children" with
    | none =>
      simp [hl] at hg
      obtain ⟨h1, h2⟩ := hg
      subst h2
      simp [J.setField, _get_children_list, lookupJ_setKV_self, h1]
    | some v =>
      cases v <;> simp [hl] at hg
      · obtain ⟨h1, h2⟩ := hg
        subst h2
        simp [J.setField, _get_children_list, lookupJ_setKV_self, h1]
      · obtain ⟨h1, h2⟩ := hg
        subst h2 h1
        simp [_get_children_list, hl]
  | null => simp [_get_children_list] at hg
  | str s => simp [_get_children_list] at hg
  | int n => simp [_get_children_list] at hg
  | bool b => simp [_get_children_list] at hg
  | arr xs => simp [_get_children_list] at hg

theorem getPy_obj_src {ast : J} {k : String} {kvs : List (String × J)}
    (h : ast.getPy k = .obj kvs) : ast.isObj = true := by
  cases ast <;> simp_all [J.getPy, J.isObj]

/-- Successful mutation decomposed: the path resolved to some node `t`,
the body `f` accepted on `t` producing `t1`, and (when `t1` is an object)
the same path resolves in the rebuilt tree to exactly `t1`. -/
theorem modifyAt_ok {A : Type} (path : List Int) :
    ∀ (node : J) (f : J → Except Err (Step (A × J))) (a : A) (node1 : J),
      modifyAt f node path = .ok (.accept (a, node1)) →
      ∃ t t1, getNode node path = .ok t ∧ f t = .ok (.accept (a, t1)) ∧
        (t1.isObj = true → node1.isObj = true ∧ getNode node1 path = .ok t1) := by
  induction path with
  | nil =>
    intro node f a node1 hm
    refine ⟨node, node1, rfl, hm, fun h => ⟨h, rfl⟩⟩
  | cons idx rest ih =>
    intro node f a node1 hm
    rw [modifyAt] at hm
    cases hg : _get_children_list node with
    | error e => rw [hg] at hm; exact absurd hm (by simp)
    | ok p =>
      obtain ⟨children, healed⟩ := p
      rw [hg] at hm
      dsimp only at hm
      by_cases hb : (decide (idx < 0) || decide ((children.length : Int) ≤ idx)) = true
      · rw [if_pos hb] at hm; exact absurd hm (by simp)
      · rw [if_neg hb] at hm
        cases hc : children[idx.toNat]? with
        | none => rw [hc] at hm; exact absurd hm (by simp)
        | some c =>
          rw [hc] at hm
          dsimp only at hm
          by_cases ho : c.isObj = true
          · rw [if_pos ho] at hm
            cases hrec : modifyAt f c rest with
            | error e => rw [hrec] at hm; exact absurd hm (by simp)
            | ok st =>
              cases st with
              | reject m => rw [hrec] at hm; exact absurd hm (by simp)
              | accept q =>
                obtain ⟨a', c'⟩ := q
                rw [hrec] at hm
                dsimp only at hm
                simp only [Except.ok.injEq, Step.accept.injEq, Prod.mk.injEq] at hm
                obtain ⟨ha1, ha2⟩ := hm
                subst ha1
                obtain ⟨t, t1, hget, hf, himp⟩ := ih c f _ c' hrec
                refine ⟨t, t1, ?_, hf, ?_⟩
                · rw [getNode, hg]
                  dsimp only
                  rw [if_neg hb, hc]
                  dsimp only
                  rw [if_pos ho]
                  exact hget
                · intro ht1
                  obtain ⟨hc'obj, hget'⟩ := himp ht1
                  have hhobj : healed.isObj = true := _gcl_healed_obj hg
                  have hn1obj : node1.isObj = true := by
                    rw [← ha2, isObj_setField]; exact hhobj
                  refine ⟨hn1obj, ?_⟩
                  have hn1ch : _get_children_list node1 =
                      .ok (children.set idx.toNat c', node1) := by
                    rw [← ha2]
                    cases hh : healed with
                    | obj hkvs =>
                      simp [J.setField, _get_children_list, lookupJ_setKV_self]
                    | null => rw [hh] at hhobj; simp [J.isObj] at hhobj
                    | str s => rw [hh] at hhobj; simp [J.isObj] at hhobj
                    | int n => rw [hh] at hhobj; simp [J.isObj] at hhobj
                    | bool b => rw [hh] at hhobj; simp [J.isObj] at hhobj
                    | arr xs => rw [hh] at hhobj; simp [J.isObj] at hhobj
                  rw [getNode, hn1ch]
                  dsimp only
                  rw [List.length_set]
                  rw [if_neg hb]
                  have hlt : idx.toNat < children.length := by
                    have hb' := hb
                    simp only [Bool.or_eq_true, decide_eq_true_eq, not_or] at hb'
                    omega
                  rw [List.getElem?_set_self hlt]
                  dsimp only
                  rw [if_pos hc'obj]
                  exact hget'
          · rw [if_neg ho] at hm; exact absurd hm (by simp)

theorem modifyAt_reject {A : Type} (path : List Int) :
    ∀ (node t : J) (f : J → Except Err (Step (A × J))) (m : String),
      getNode node path = .ok t → f t = .ok (.reject m) →
      modifyAt f node path = .ok (.reject m) := by
  induction path with
  | nil =>
    intro node t f m hget hf
    have : node = t := by simpa [getNode] using hget
    subst this
    simpa [modifyAt] using hf
  | cons idx rest ih =>
    intro node t f m hget hf
    rw [getNode] at hget
    rw [modifyAt]
    cases hg : _get_children_list node with
    | error e => rw [hg] at hget; exact absurd hget (by simp)
    | ok p =>
      obtain ⟨children, healed⟩ := p
      rw [hg] at hget
      dsimp only at hget
      dsimp only
      by_cases hb : (decide (idx < 0) || decide ((children.length : Int) ≤ idx)) = true
      · rw [if_pos hb] at hget; exact absurd hget (by simp)
      · rw [if_neg hb] at hget
        rw [if_neg hb]
        cases hc : children[idx.toNat]? with
        | none => rw [hc] at hget; exact absurd hget (by simp)
        | some c =>
          rw [hc] at hget
          dsimp only at hget
          dsimp only
          by_cases ho : c.isObj = true
          · rw [if_pos ho] at hget
            rw [if_pos ho]
            rw [ih c t f m hget hf]
          · rw [if_neg ho] at hget; exact absurd hget (by simp)

theorem modifyAt_accept {A : Type} (path : List Int) :
    ∀ (node t : J) (f : J → Except Err (Step (A × J))) (a : A) (t1 : J),
      getNode node path = .ok t → f t = .ok (.accept (a, t1)) →
      ∃ node1, modifyAt f node path = .ok (.accept (a, node1)) := by
  induction path with
  | nil =>
    intro node t f a t1 hget hf
    have : node = t := by simpa [getNode] using hget
    subst this
    exact ⟨t1, by simpa [modifyAt] using hf⟩
  | cons idx rest ih =>
    intro node t f a t1 hget hf
    rw [getNode] at hget
    cases hg : _get_children_list node with
    | error e => rw [hg] at hget; exact absurd hget (by simp)
    | ok p =>
      obtain ⟨children, healed⟩ := p
      rw [hg] at hget
      dsimp only at hget
      by_cases hb : (decide (idx < 0) || decide ((children.length : Int) ≤ idx)) = true
      · rw [if_pos hb] at hget; exact absurd hget (by simp)
      · rw [if_neg hb] at hget
        cases hc : children[idx.toNat]? with
        | none => rw [hc] at hget; exact absurd hget (by simp)
        | some c =>
          rw [hc] at hget
          dsimp only at hget
          by_cases ho : c.isObj = true
          · rw [if_pos ho] at hget
            obtain ⟨c1, hc1⟩ := ih c t f a t1 hget hf
            refine ⟨healed.setField "children" (.arr (children.set idx.toNat c1)), ?_⟩
            rw [modifyAt, hg]
            dsimp only
            rw [if_neg hb, hc]
            dsimp only
            rw [if_pos ho, hc1]
          · rw [if_neg ho] at hget; exact absurd hget (by simp)

theorem modifyRoot_ok {A : Type} {ast : J} {path : List Int}
    {f : J → Except Err (Step (A × J))} {a : A} {ast1 : J}
    (hm : modifyRoot f ast path = .ok (.accept (a, ast1))) :
    ∃ t t1, getNodeRoot ast path = .ok t ∧ f t = .ok (.accept (a, t1)) ∧
      (t1.isObj = true → getNodeRoot ast1 path = .ok t1) := by
  rw [modifyRoot] at hm
  cases hr : ast.getPy "root" with
  | obj kvs =>
    rw [hr] at hm
    dsimp only at hm
    cases hma : modifyAt f (.obj kvs) path with
    | error e => rw [hma] at hm; exact absurd hm (by simp)
    | ok st =>
      cases st with
      | reject m => rw [hma] at hm; exact absurd hm (by simp)
      | accept q =>
        obtain ⟨a', r'⟩ := q
        rw [hma] at hm
        dsimp only at hm
        simp only [Except.ok.injEq, Step.accept.injEq, Prod.mk.injEq] at hm
        obtain ⟨ha1, ha2⟩ := hm
        subst ha1
        obtain ⟨t, t1, hget, hf, himp⟩ := modifyAt_ok path (.obj kvs) f _ r' hma
        refine ⟨t, t1, ?_, hf, ?_⟩
        · rw [getNodeRoot, hr]; exact hget
        · intro ht1
          obtain ⟨hr'obj, hget'⟩ := himp ht1
          have hastobj : ast.isObj = true := getPy_obj_src hr
          have : ast1.getPy "root" = r' := by
            rw [← ha2]; exact getPy_setField_self ast "root" r' hastobj
          rw [getNodeRoot, this]
          cases hr' : r' with
          | obj rkvs => subst hr'; dsimp only; exact hget'
          | null => simp [hr', J.isObj] at hr'obj
          | str s => simp [hr', J.isObj] at hr'obj
          | int n => simp [hr', J.isObj] at hr'obj
          | bool b => simp [hr', J.isObj] at hr'obj
          | arr xs => simp [hr', J.isObj] at hr'obj
  | null => rw [hr] at hm; exact absurd hm (by simp)
  | str s => rw [hr] at hm; exact absurd hm (by simp)
  | int n => rw [hr] at hm; exact absurd hm (by simp)
  | bool b => rw [hr] at hm; exact absurd hm (by simp)
  | arr xs => rw [hr] at hm; exact absurd hm (by simp)

theorem modifyRoot_reject {A : Type} {ast t : J} {path : List Int}
    {f : J → Except Err (Step (A × J))} {m : String}
    (hget : getNodeRoot ast path = .ok t) (hf : f t = .ok (.reject m)) :
    modifyRoot f ast path = .ok (.reject m) := by
  rw [getNodeRoot] at hget
  rw [modifyRoot]
  cases hr : ast.getPy "root" with
  | obj kvs =>
    rw [hr] at hget
    dsimp only at hget
    dsimp only
    rw [modifyAt_reject path (.obj kvs) t f m hget hf]
  | null => rw [hr] at hget; exact absurd hget (by simp)
  | str s => rw [hr] at hget; exact absurd hget (by simp)
  | int n => rw [hr] at hget; exact absurd hget (by simp)
  | bool b => rw [hr] at hget; exact absurd hget (by simp)
  | arr xs => rw [hr] at hget; exact absurd hget (by simp)

theorem modifyRoot_accept {A : Type} {ast t : J} {path : List Int}
    {f : J → Except Err (Step (A × J))} {a : A} {t1 : J}
    (hget : getNodeRoot ast path = .ok t) (hf : f t = .ok (.accept (a, t1))) :
    ∃ ast1, modifyRoot f ast path = .ok (.accept (a, ast1)) := by
  rw [getNodeRoot] at hget
  cases hr : ast.getPy "root" with
  | obj kvs =>
    rw [hr] at hget
    dsimp only at hget
    obtain ⟨r1, hr1⟩ := modifyAt_accept path (.obj kvs) t f a t1 hget hf
    refine ⟨ast.setField "root" r1, ?_⟩
    rw [modifyRoot, hr]
    dsimp only
    rw [hr1]
  | null => rw [hr] at hget; exact absurd hget (by simp)
  | str s => rw [hr] at hget; exact absurd hget (by simp)
  | int n => rw [hr] at hget; exact absurd hget (by simp)
  | bool b => rw [hr] at hget; exact absurd hget (by simp)
  | arr xs => rw [hr] at hget; exact absurd hget (by simp)

theorem getNode_append (P Q : List Int) :
    ∀ node : J, getNode node (P ++ Q) =
      match getNode node P with
      | .error e => .error e
      | .ok t => getNode t Q := by
  induction P with
  | nil => intro node; simp [getNode]
  | cons idx rest ih =>
    intro node
    rw [List.cons_append, getNode, getNode]
    cases hg : _get_children_list node with
    | error e => rfl
    | ok p =>
      obtain ⟨children, healed⟩ := p
      dsimp only
      by_cases hb : (decide (idx < 0) || decide ((children.length : Int) ≤ idx)) = true
      · rw [if_pos hb, if_pos hb]
      · rw [if_neg hb, if_neg hb]
        cases hc : children[idx.toNat]? with
        | none => rfl
        | some c =>
          dsimp only
          by_cases ho : c.isObj = true
          · rw [if_pos ho, if_pos ho]; exact ih c
          · rw [if_neg ho, if_neg ho]

theorem _gcl_error_ve {node : J} {e : Err}
    (h : _get_children_list node = .error e) : ∃ m, e = .valueError m := by
  cases node with
  | obj kvs =>
    simp only [_get_children_list] at h
    cases hl : lookupJ kvs "children" with
    | none => rw [hl] at h; simp at h
    | some v =>
      rw [hl] at h
      cases v <;> simp only [Except.error.injEq] at h <;> first
        | (exact ⟨_, h.symm⟩)
        | (exact absurd h (by simp))
  | null => exact ⟨_, (by simpa [_get_children_list] using h : _ = e).symm⟩
  | str s => exact ⟨_, (by simpa [_get_children_list] using h : _ = e).symm⟩
  | int n => exact ⟨_, (by simpa [_get_children_list] using h : _ = e).symm⟩
  | bool b => exact ⟨_, (by simpa [_get_children_list] using h : _ = e).symm⟩
  | arr xs => exact ⟨_, (by simpa [_get_children_list] using h : _ = e).symm⟩

/-- Spec-side description of an out-of-bounds hop below a given node:
after `k` successful hops the traversal reached a node `t`, obtained its
children list `cs`, and the path's `k`-th index `i` lies outside
`[0, cs.length)`; `n` is the actual children length reported. -/
def HopOutOfBounds (node : J) (path : List Int) (i : Int) (n : Nat) : Prop :=
  ∃ k t cs hl, getNode node (path.take k) = .ok t ∧
    _get_children_list t = .ok (cs, hl) ∧ path[k]? = some i ∧
    (i < 0 ∨ (cs.length : Int) ≤ i) ∧ n = cs.length

theorem getNode_indexError_iff (path : List Int) :
    ∀ (node : J) (i : Int) (n : Nat),
      getNode node path = .error (.indexError i n) ↔
        HopOutOfBounds node path i n := by
  induction path with
  | nil =>
    intro node i n
    constructor
    · intro h; exact absurd h (by simp [getNode])
    · rintro ⟨k, t, cs, hl, h1, h2, h3, h4, h5⟩
      simp at h3
  | cons idx rest ih =>
    intro node i n
    cases hg : _get_children_list node with
    | error e =>
      obtain ⟨m, hm⟩ := _gcl_error_ve hg
      subst hm
      constructor
      · intro h
        rw [getNode, hg] at h
        exact absurd h (by simp)
      · rintro ⟨k, t, cs, hl, h1, h2, h3, h4, h5⟩
        cases k with
        | zero =>
          simp only [List.take_zero, getNode, Except.ok.injEq] at h1
          subst h1
          rw [hg] at h2
          exact absurd h2 (by simp)
        | succ k' =>
          rw [List.take_succ_cons, getNode, hg] at h1
          exact absurd h1 (by simp)
    | ok p =>
      obtain ⟨children, healed⟩ := p
      by_cases hb : (decide (idx < 0) || decide ((children.length : Int) ≤ idx)) = true
      · constructor
        · intro h
          rw [getNode, hg] at h
          dsimp only at h
          rw [if_pos hb] at h
          simp only [Except.error.injEq, Err.indexError.injEq] at h
          obtain ⟨h1, h2⟩ := h
          subst h1
          refine ⟨0, node, children, healed, by simp [getNode], hg, by simp, ?_, h2.symm⟩
          simpa only [Bool.or_eq_true, decide_eq_true_eq] using hb
        · rintro ⟨k, t, cs, hl, h1, h2, h3, h4, h5⟩
          cases k with
          | zero =>
            simp only [List.take_zero, getNode, Except.ok.injEq] at h1
            subst h1
            rw [hg] at h2
            simp only [Except.ok.injEq, Prod.mk.injEq] at h2
            simp only [List.getElem?_cons_zero, Option.some.injEq] at h3
            rw [getNode, hg]
            dsimp only
            rw [if_pos hb]
            rw [h3, h5, h2.1]
          | succ k' =>
            rw [List.take_succ_cons, getNode, hg] at h1
            dsimp only at h1
            rw [if_pos hb] at h1
            exact absurd h1 (by simp)
      · have hb' := hb
        simp only [Bool.or_eq_true, decide_eq_true_eq, not_or] at hb'
        have hlt : idx.toNat < children.length := by omega
        obtain ⟨c, hc⟩ : ∃ c, children[idx.toNat]? = some c :=
          ⟨children[idx.toNat], List.getElem?_eq_getElem hlt⟩
        have hstep : ∀ Q, c.isObj = true →
            getNode node (idx :: Q) = getNode c Q := by
          intro Q ho
          rw [getNode, hg]
          dsimp only
          rw [if_neg hb, hc]
          dsimp only
          rw [if_pos ho]
        by_cases ho : c.isObj = true
        · rw [hstep rest ho, ih c i n]
          constructor
          · rintro ⟨k, t, cs, hl, h1, h2, h3, h4, h5⟩
            refine ⟨k + 1, t, cs, hl, ?_, h2, ?_, h4, h5⟩
            · rw [List.take_succ_cons, hstep (rest.take k) ho]
              exact h1
            · simpa using h3
          · rintro ⟨k, t, cs, hl, h1, h2, h3, h4, h5⟩
            cases k with
            | zero =>
              simp only [List.take_zero, getNode, Except.ok.injEq] at h1
              subst h1
              rw [hg] at h2
              simp only [Except.ok.injEq, Prod.mk.injEq] at h2
              simp only [List.getElem?_cons_zero, Option.some.injEq] at h3
              rw [← h2.1] at h4
              omega
            | succ k' =>
              rw [List.take_succ_cons, hstep (rest.take k') ho] at h1
              refine ⟨k', t, cs, hl, h1, h2, ?_, h4, h5⟩
              simpa using h3
        · constructor
          · intro h
            rw [getNode, hg] at h
            dsimp only at h
            rw [if_neg hb, hc] at h
            dsimp only at h
            rw [if_neg ho] at h
            exact absurd h (by simp)
          · rintro ⟨k, t, cs, hl, h1, h2, h3, h4, h5⟩
            cases k with
            | zero =>
              simp only [List.take_zero, getNode, Except.ok.injEq] at h1
              subst h1
              rw [hg] at h2
              simp only [Except.ok.injEq, Prod.mk.injEq] at h2
              simp only [List.getElem?_cons_zero, Option.some.injEq] at h3
              rw [← h2.1] at h4
              omega
            | succ k' =>
              rw [List.take_succ_cons, getNode, hg] at h1
              dsimp only at h1
              rw [if_neg hb, hc] at h1
              dsimp only at h1
              rw [if_neg ho] at h1
              exact absurd h1 (by simp)

theorem map_node_ok {x : Except Err _NodeRef} {t : J}
    (h : x.map _NodeRef.node = .ok t) : ∃ r, x = .ok r ∧ r.node = t := by
  cases x with
  | ok r => exact ⟨r, rfl, by simpa [Except.map] using h⟩
  | error e => simp [Except.map] at h

theorem map_node_error {x : Except Err _NodeRef} {e : Err} :
    x.map _NodeRef.node = .error e ↔ x = .error e := by
  cases x <;> simp [Except.map]

/-- Instance-building helper: a well-shaped node literal. -/
def mkNode (t s : J) (cs : List J) : J :=
  .obj [("section_title", t), ("content_summary", s), ("children", .arr cs)]

/-- Instance-building helper: a well-shaped persisted document literal. -/
def mkAst (fn : String) (root : J) : J :=
  .obj [("file_name", .str fn), ("root", root)]

/-- C2: resolving a path fails with a PathResolutionError (`IndexError`)
exactly when some hop's index `i` is outside `[0, len(children))` for the
node reached at that hop, and the error carries both the offending index
and the actual children length; the empty path never fails with an index
error, only with a malformed-root `ValueError`. -/
theorem C2_path_resolution_errors (ast : J) (path : List Int) (i : Int) (n : Nat) :
    (_traverse ast path = .error (.indexError i n) ↔
      ∃ k r cs hl, _traverse ast (path.take k) = .ok r ∧
        _get_children_list r.node = .ok (cs, hl) ∧ path[k]? = some i ∧
        (i < 0 ∨ (cs.length : Int) ≤ i) ∧ n = cs.length) ∧
    (∀ e, _traverse ast [] = .error e →
      e = .valueError "Invalid AST: missing 'root' object.") := by
  constructor
  · constructor
    · intro h
      have h' : getNodeRoot ast path = .error (.indexError i n) := by
        rw [← _traverse_node_eq, h]; rfl
      rw [getNodeRoot] at h'
      cases hr : ast.getPy "root" with
      | obj kvs =>
        rw [hr] at h'
        dsimp only at h'
        obtain ⟨k, t, cs, hl, h1, h2, h3, h4, h5⟩ :=
          (getNode_indexError_iff path (.obj kvs) i n).mp h'
        have hg : getNodeRoot ast (path.take k) = .ok t := by
          rw [getNodeRoot, hr]
          dsimp only
          exact h1
        obtain ⟨r, hr1, hr2⟩ := map_node_ok (x := _traverse ast (path.take k))
          (by rw [_traverse_node_eq]; exact hg)
        exact ⟨k, r, cs, hl, hr1, by rw [hr2]; exact h2, h3, h4, h5⟩
      | null => rw [hr] at h'; simp at h'
      | str s => rw [hr] at h'; simp at h'
      | int m => rw [hr] at h'; simp at h'
      | bool b => rw [hr] at h'; simp at h'
      | arr xs => rw [hr] at h'; simp at h'
    · rintro ⟨k, r, cs, hl, h1, h2, h3, h4, h5⟩
      have h1' : getNodeRoot ast (path.take k) = .ok r.node := by
        rw [← _traverse_node_eq, h1]; rfl
      rw [getNodeRoot] at h1'
      cases hr : ast.getPy "root" with
      | obj kvs =>
        rw [hr] at h1'
        dsimp only at h1'
        have hob : HopOutOfBounds (.obj kvs) path i n :=
          ⟨k, r.node, cs, hl, h1', h2, h3, h4, h5⟩
        have herr := (getNode_indexError_iff path (.obj kvs) i n).mpr hob
        apply map_node_error.mp
        rw [_traverse_node_eq, getNodeRoot, hr]
        exact herr
      | null => rw [hr] at h1'; simp at h1'
      | str s => rw [hr] at h1'; simp at h1'
      | int m => rw [hr] at h1'; simp at h1'
      | bool b => rw [hr] at h1'; simp at h1'
      | arr xs => rw [hr] at h1'; simp at h1'
  · intro e h
    rw [_traverse] at h
    cases hr : ast.getPy "root" with
    | obj kvs => rw [hr] at h; simp [_traverse_go] at h
    | null => rw [hr] at h; simpa using h.symm
    | str s => rw [hr] at h; simpa using h.symm
    | int m => rw [hr] at h; simpa using h.symm
    | bool b => rw [hr] at h; simpa using h.symm
    | arr xs => rw [hr] at h; simpa using h.symm

/-- Witness for C2 at concrete inputs: an out-of-bounds index 5 under an
empty root is reported as `IndexError 5 (length 0)` and decomposes into a
failing hop; and the empty path on a rootless document fails with the
malformed-root `ValueError`. -/
theorem C2_path_resolution_errors_witness :
    (∃ k r cs hl,
      _traverse (mkAst "d" (mkNode .null (.str "") [])) (([5] : List Int).take k) = .ok r ∧
      _get_children_list r.node = .ok (cs, hl) ∧ ([5] : List Int)[k]? = some 5 ∧
      ((5 : Int) < 0 ∨ (cs.length : Int) ≤ 5) ∧ 0 = cs.length) ∧
    (Err.valueError "Invalid AST: missing 'root' object." =
      Err.valueError "Invalid AST: missing 'root' object.") := by
  constructor
  · exact (C2_path_resolution_errors (mkAst "d" (mkNode .null (.str "") []))
      [5] 5 0).1.mp (by rfl)
  · exact (C2_path_resolution_errors (.obj []) [] 0 0).2
      (.valueError "Invalid AST: missing 'root' object.") (by rfl)

theorem setKV_setKV (kvs : List (String × J)) (k : String) (v w : J) :
    setKV (setKV kvs k v) k w = setKV kvs k w := by
  induction kvs with
  | nil => simp [setKV]
  | cons hd rest ih =>
    obtain ⟨k', v'⟩ := hd
    by_cases h : k' == k
    · simp [setKV, h]
    · simp [setKV, h, ih]

theorem setField_setField (j : J) (k : String) (v w : J) :
    (j.setField k v).setField k w = j.setField k w := by
  cases j <;> simp [J.setField, setKV_setKV]

theorem _gcl_of_setChildren {j : J} (hobj : j.isObj = true) (xs : List J) :
    _get_children_list (j.setField "children" (.arr xs)) =
      .ok (xs, j.setField "children" (.arr xs)) := by
  cases j with
  | obj kvs => simp [J.setField, _get_children_list, lookupJ_setKV_self]
  | null => simp [J.isObj] at hobj
  | str s => simp [J.isObj] at hobj
  | int n => simp [J.isObj] at hobj
  | bool b => simp [J.isObj] at hobj
  | arr ys => simp [J.isObj] at hobj

theorem findTitleIndex_none {t : String} {cs : List J}
    (h : ∀ c ∈ cs, titleMatches t c = false) :
    ∀ i, findTitleIndex t cs i = none := by
  induction cs with
  | nil => intro i; rfl
  | cons c rest ih =>
    intro i
    rw [findTitleIndex]
    rw [h c (by simp)]
    simp only [Bool.false_eq_true, if_false]
    exact ih (fun c hc => h c (by simp [hc])) (i + 1)

theorem findTitleIndex_last {t : String} {cs : List J} {x : J}
    (h : ∀ c ∈ cs, titleMatches t c = false) (hx : titleMatches t x = true) :
    ∀ i, findTitleIndex t (cs ++ [x]) i = some (i + cs.length) := by
  induction cs with
  | nil => intro i; simp [findTitleIndex, hx]
  | cons c rest ih =>
    intro i
    rw [List.cons_append, findTitleIndex]
    rw [h c (by simp)]
    simp only [Bool.false_eq_true, if_false]
    rw [ih (fun c hc => h c (by simp [hc])) (i + 1)]
    simp
    omega

theorem titleMatches_make (t : String) (s : String) :
    titleMatches t (_make_node (some t) s) = true := by
  by_cases h : t = ""
  · subst h
    simp [titleMatches, _make_node, J.isObj, J.getPy, lookupJ, pyOr, truthy, pyEqStr]
  · simp [titleMatches, _make_node, J.isObj, J.getPy, lookupJ, pyOr, truthy, pyEqStr, h]

theorem make_node_set_summary (t : Option String) (s v : String) :
    (_make_node t s).setField "content_summary" (.str v) = _make_node t v := by
  simp [_make_node, J.setField, setKV]

/-- Combination of `modifyRoot_accept` and `modifyRoot_ok`: when the path
resolves to `t` and the body accepts on `t` producing an object `t1`, the
whole mutation succeeds and the same path resolves to `t1` afterwards. -/
theorem modifyRoot_accept_full {A : Type} {ast t : J} {path : List Int}
    {f : J → Except Err (Step (A × J))} {a : A} {t1 : J}
    (hget : getNodeRoot ast path = .ok t) (hf : f t = .ok (.accept (a, t1)))
    (hobj : t1.isObj = true) :
    ∃ ast1, modifyRoot f ast path = .ok (.accept (a, ast1)) ∧
      getNodeRoot ast1 path = .ok t1 := by
  obtain ⟨ast1, hm⟩ := modifyRoot_accept hget hf
  obtain ⟨t', t1', hget', hf', himp⟩ := modifyRoot_ok hm
  rw [hget] at hget'
  have ht' : t' = t := by simpa using hget'.symm
  subst ht'
  rw [hf] at hf'
  have ht1' : t1' = t1 := by
    simp only [Except.ok.injEq, Step.accept.injEq, Prod.mk.injEq] at hf'
    exact hf'.2.symm
  subst ht1'
  exact ⟨ast1, hm, himp hobj⟩

theorem pyStr_pyOr_str (s : String) :
    pyStr (pyOr (.str s) (.str "")) = s := by
  by_cases h : s = "" <;> simp [pyOr, truthy, pyStr, h]

theorem make_node_getPy_summary (t : Option String) (s : String) :
    (_make_node t s).getPy "content_summary" = .str s := by
  simp [_make_node, J.getPy, lookupJ]

theorem set_concat_self {α : Type} (l : List α) (x y : α) :
    (l ++ [x]).set l.length y = l ++ [y] := by
  rw [List.set_append_right _ _ (le_refl _)]
  simp

/-- C1 (amended: no direct child of the parent may already bear title `T`):
under a resolvable parent path, the first upsert with a fresh non-empty
title returns op `created` and appends the new child at the end; the
second upsert with the same title returns op `appended` pointing at that
same child, leaves the children count unchanged (only the last child is
replaced), and sets the child's summary to `rstrip(s1) + "\n" + lstrip(s2)`
when `s1` is non-empty, or to `s2` verbatim when `s1` was empty. -/
theorem C1_upsert_twice (ast : J) (P : List Int) (T s1 s2 : String)
    (ref : _NodeRef) (cs : List J) (hp : J)
    (hT : T ≠ "")
    (htrav : _traverse ast P = .ok ref)
    (hch : _get_children_list ref.node = .ok (cs, hp))
    (hno : ∀ c ∈ cs, titleMatches T c = false) :
    ∃ ast1 ast2,
      upsert_child_by_title_op ast P T s1 =
        .ok (.accept (("created", P ++ [(cs.length : Int)]), ast1)) ∧
      getNodeRoot ast1 P =
        .ok (hp.setField "children" (.arr (cs ++ [_make_node (some T) s1]))) ∧
      upsert_child_by_title_op ast1 P T s2 =
        .ok (.accept (("appended", P ++ [(cs.length : Int)]), ast2)) ∧
      getNodeRoot ast2 P =
        .ok (hp.setField "children" (.arr (cs ++ [_make_node (some T)
          (if s1 = "" then s2 else rstripPy s1 ++ "\n" ++ lstripPy s2)]))) := by
  have hget : getNodeRoot ast P = .ok ref.node := by
    rw [← _traverse_node_eq, htrav]; rfl
  have hpobj : hp.isObj = true := _gcl_healed_obj hch
  have hp1obj : (hp.setField "children"
      (.arr (cs ++ [_make_node (some T) s1]))).isObj = true := by
    rw [isObj_setField]; exact hpobj
  have hf1 : upsert_body P T s1 ref.node =
      .ok (.accept (("created", P ++ [(cs.length : Int)]),
        hp.setField "children" (.arr (cs ++ [_make_node (some T) s1])))) := by
    rw [upsert_body, hch]
    dsimp only
    rw [findTitleIndex_none hno 0]
  obtain ⟨ast1, hm1, hget1⟩ := modifyRoot_accept_full hget hf1 hp1obj
  have hch1 : _get_children_list (hp.setField "children"
      (.arr (cs ++ [_make_node (some T) s1]))) =
      .ok (cs ++ [_make_node (some T) s1],
        hp.setField "children" (.arr (cs ++ [_make_node (some T) s1]))) :=
    _gcl_of_setChildren hpobj _
  have hfi2 : findTitleIndex T (cs ++ [_make_node (some T) s1]) 0 =
      some cs.length := by
    simpa using findTitleIndex_last hno (titleMatches_make T s1) 0
  have hidx : (cs ++ [_make_node (some T) s1])[cs.length]? =
      some (_make_node (some T) s1) := List.getElem?_concat_length _ _
  have hf2 : upsert_body P T s2 (hp.setField "children"
      (.arr (cs ++ [_make_node (some T) s1]))) =
      .ok (.accept (("appended", P ++ [(cs.length : Int)]),
        hp.setField "children" (.arr (cs ++ [_make_node (some T)
          (if s1 = "" then s2 else rstripPy s1 ++ "\n" ++ lstripPy s2)])))) := by
    rw [upsert_body, hch1]
    dsimp only
    rw [hfi2]
    dsimp only
    rw [hidx]
    dsimp only
    rw [make_node_getPy_summary, pyStr_pyOr_str]
    by_cases hs : s1 = ""
    · subst hs
      simp [make_node_set_summary, set_concat_self, setField_setField]
    · simp [bne, hs, make_node_set_summary, set_concat_self, setField_setField]
  have hp2obj : (hp.setField "children" (.arr (cs ++ [_make_node (some T)
      (if s1 = "" then s2 else rstripPy s1 ++ "\n" ++ lstripPy s2)]))).isObj = true := by
    rw [isObj_setField]; exact hpobj
  obtain ⟨ast2, hm2, hget2⟩ := modifyRoot_accept_full hget1 hf2 hp2obj
  exact ⟨ast1, ast2, hm1, hget1, hm2, hget2⟩

/-- Witness for C1 at a concrete input: upserting title `"B"` twice under
an initially `"B"`-free root creates then appends. -/
theorem C1_upsert_twice_witness :
    ∃ ast1 ast2,
      upsert_child_by_title_op
        (mkAst "d" (mkNode .null (.str "") [mkNode (.str "A") (.str "x") []]))
        [] "B" "one " =
        .ok (.accept (("created", [1]), ast1)) ∧
      getNodeRoot ast1 [] =
        .ok (mkNode .null (.str "")
          [mkNode (.str "A") (.str "x") [], _make_node (some "B") "one "]) ∧
      upsert_child_by_title_op ast1 [] "B" " two" =
        .ok (.accept (("appended", [1]), ast2)) ∧
      getNodeRoot ast2 [] =
        .ok (mkNode .null (.str "")
          [mkNode (.str "A") (.str "x") [], _make_node (some "B") "one\ntwo"]) := by
  have h := C1_upsert_twice
    (mkAst "d" (mkNode .null (.str "") [mkNode (.str "A") (.str "x") []]))
    [] "B" "one " " two"
    ⟨mkNode .null (.str "") [mkNode (.str "A") (.str "x") []], none, none⟩
    [mkNode (.str "A") (.str "x") []]
    (mkNode .null (.str "") [mkNode (.str "A") (.str "x") []])
    (by decide) (by rfl) (by rfl) (by decide)
  obtain ⟨ast1, ast2, h1, h2, h3, h4⟩ := h
  refine ⟨ast1, ast2, ?_, ?_, ?_, ?_⟩
  · simpa using h1
  · exact h2.trans (by rfl)
  · simpa using h3
  · exact h4.trans (by rfl)

/-- Counterexample to C1 as frozen: when the parent already has a child
with the requested title, the FIRST call already returns op `appended`
(not `created`). -/
theorem C1_counterexample :
    upsert_child_by_title_op
      (mkAst "d" (mkNode .null (.str "") [mkNode (.str "A") (.str "x") []]))
      [] "A" "s1" =
      .ok (.accept (("appended", [0]),
        mkAst "d" (mkNode .null (.str "") [mkNode (.str "A") (.str "x\ns1") []]))) ∧
    "appended" ≠ "created" := by
  constructor
  · rfl
  · decide

theorem getNodeRoot_append (ast : J) (P Q : List Int) :
    getNodeRoot ast (P ++ Q) =
      match getNodeRoot ast P with
      | .error e => .error e
      | .ok t => getNode t Q := by
  unfold getNodeRoot
  cases hr : ast.getPy "root" with
  | obj kvs => exact getNode_append P Q (.obj kvs)
  | null => rfl
  | str s => rfl
  | int n => rfl
  | bool b => rfl
  | arr xs => rfl

/-- C3: with an explicit position `p`, `append_child` under a resolved
parent with `n` children succeeds exactly when `0 ≤ p ≤ n` (so `p = n`
inserts at the end); out-of-range positions are rejected with a
RangeError message naming the valid bound `0..n`; on success the new
node path is `parent_path ++ [p]` and the node lands at index `p`. -/
theorem C3_append_child_position (ast : J) (P : List Int) (st : Option String)
    (sum : String) (p : Int) (ref : _NodeRef) (cs : List J) (hp : J)
    (htrav : _traverse ast P = .ok ref)
    (hch : _get_children_list ref.node = .ok (cs, hp)) :
    ((∃ pth ast1, append_child_op ast P st sum (some p) =
        .ok (.accept (pth, ast1))) ↔ (0 ≤ p ∧ p ≤ (cs.length : Int))) ∧
    ((p < 0 ∨ (cs.length : Int) < p) →
      append_child_op ast P st sum (some p) =
        .ok (.reject s!"position out of range: {p} (0..{cs.length})")) ∧
    (0 ≤ p → p ≤ (cs.length : Int) →
      ∃ ast1, append_child_op ast P st sum (some p) =
          .ok (.accept (P ++ [p], ast1)) ∧
        getNodeRoot ast1 P =
          .ok (hp.setField "children"
            (.arr (cs.insertIdx p.toNat (_make_node st sum)))) ∧
        getNodeRoot ast1 (P ++ [p]) = .ok (_make_node st sum)) := by
  have hget : getNodeRoot ast P = .ok ref.node := by
    rw [← _traverse_node_eq, htrav]; rfl
  have hpobj : hp.isObj = true := _gcl_healed_obj hch
  have hsuccess : 0 ≤ p → p ≤ (cs.length : Int) →
      ∃ ast1, append_child_op ast P st sum (some p) =
          .ok (.accept (P ++ [p], ast1)) ∧
        getNodeRoot ast1 P =
          .ok (hp.setField "children"
            (.arr (cs.insertIdx p.toNat (_make_node st sum)))) ∧
        getNodeRoot ast1 (P ++ [p]) = .ok (_make_node st sum) := by
    intro h0 hn
    have hb : ¬ ((decide (p < 0) || decide ((cs.length : Int) < p)) = true) := by
      simp only [Bool.or_eq_true, decide_eq_true_eq, not_or]
      omega
    have hf : append_child_body P st sum (some p) ref.node =
        .ok (.accept (P ++ [p],
          hp.setField "children"
            (.arr (cs.insertIdx p.toNat (_make_node st sum))))) := by
      rw [append_child_body, hch]
      dsimp only
      rw [if_neg hb]
    have hobj : (hp.setField "children"
        (.arr (cs.insertIdx p.toNat (_make_node st sum)))).isObj = true := by
      rw [isObj_setField]; exact hpobj
    obtain ⟨ast1, hm, hget1⟩ := modifyRoot_accept_full hget hf hobj
    refine ⟨ast1, hm, hget1, ?_⟩
    rw [getNodeRoot_append, hget1]
    dsimp only
    have hple : p.toNat ≤ cs.length := by omega
    have hlen : (cs.insertIdx p.toNat (_make_node st sum)).length =
        cs.length + 1 := List.length_insertIdx _ _ hple
    have hb2 : ¬ ((decide (p < 0) ||
        decide (((cs.insertIdx p.toNat (_make_node st sum)).length : Int) ≤ p))
          = true) := by
      simp only [Bool.or_eq_true, decide_eq_true_eq, not_or, hlen]
      push_cast
      omega
    rw [getNode, _gcl_of_setChildren hpobj]
    dsimp only
    rw [if_neg hb2]
    have hlt : p.toNat < (cs.insertIdx p.toNat (_make_node st sum)).length := by
      omega
    rw [List.getElem?_eq_getElem hlt]
    rw [List.getElem_insertIdx_self _ _ _ hple]
    dsimp only
    rw [if_pos (by simp [_make_node, J.isObj])]
    rfl
  refine ⟨?_, ?_, hsuccess⟩
  · constructor
    · rintro ⟨pth, ast1, hm⟩
      obtain ⟨t, t1, hget', hf', _⟩ := modifyRoot_ok hm
      rw [hget] at hget'
      have ht : t = ref.node := by simpa using hget'.symm
      subst ht
      rw [append_child_body, hch] at hf'
      dsimp only at hf'
      by_cases hb : ((decide (p < 0) || decide ((cs.length : Int) < p)) = true)
      · rw [if_pos hb] at hf'
        exact absurd hf' (by simp)
      · simp only [Bool.or_eq_true, decide_eq_true_eq, not_or] at hb
        omega
    · rintro ⟨h0, hn⟩
      obtain ⟨ast1, hm, _⟩ := hsuccess h0 hn
      exact ⟨P ++ [p], ast1, hm⟩
  · intro hbad
    have hb : ((decide (p < 0) || decide ((cs.length : Int) < p)) = true) := by
      simp only [Bool.or_eq_true, decide_eq_true_eq]
      exact hbad
    have hf : append_child_body P st sum (some p) ref.node =
        .ok (.reject s!"position out of range: {p} (0..{cs.length})") := by
      rw [append_child_body, hch]
      dsimp only
      rw [if_pos hb]
    exact modifyRoot_reject hget hf

/-- Witness for C3 at concrete inputs: under a parent with 2 children,
position 2 (equal to the length) succeeds inserting at the end, and
position 3 is rejected with the RangeError message naming `0..2`. -/
theorem C3_append_child_position_witness :
    (∃ ast1, append_child_op
        (mkAst "d" (mkNode .null (.str "")
          [mkNode (.str "a") (.str "") [], mkNode (.str "b") (.str "") []]))
        [] (some "S") "sum" (some 2) =
        .ok (.accept ([2], ast1)) ∧
      getNodeRoot ast1 [] =
        .ok (mkNode .null (.str "")
          [mkNode (.str "a") (.str "") [], mkNode (.str "b") (.str "") [],
            _make_node (some "S") "sum"]) ∧
      getNodeRoot ast1 [2] = .ok (_make_node (some "S") "sum")) ∧
    append_child_op
      (mkAst "d" (mkNode .null (.str "")
        [mkNode (.str "a") (.str "") [], mkNode (.str "b") (.str "") []]))
      [] (some "S") "sum" (some 3) =
      .ok (.reject "position out of range: 3 (0..2)") := by
  have h := C3_append_child_position
    (mkAst "d" (mkNode .null (.str "")
      [mkNode (.str "a") (.str "") [], mkNode (.str "b") (.str "") []]))
    [] (some "S") "sum"
  constructor
  · obtain ⟨ast1, hm, hg1, hg2⟩ := (h 2
      ⟨mkNode .null (.str "")
        [mkNode (.str "a") (.str "") [], mkNode (.str "b") (.str "") []], none, none⟩
      [mkNode (.str "a") (.str "") [], mkNode (.str "b") (.str "") []]
      (mkNode .null (.str "")
        [mkNode (.str "a") (.str "") [], mkNode (.str "b") (.str "") []])
      (by rfl) (by rfl)).2.2 (by decide) (by decide)
    exact ⟨ast1, by simpa using hm, hg1.trans (by rfl), hg2⟩
  · have := (h 3
      ⟨mkNode .null (.str "")
        [mkNode (.str "a") (.str "") [], mkNode (.str "b") (.str "") []], none, none⟩
      [mkNode (.str "a") (.str "") [], mkNode (.str "b") (.str "") []]
      (mkNode .null (.str "")
        [mkNode (.str "a") (.str "") [], mkNode (.str "b") (.str "") []])
      (by rfl) (by rfl)).2.1 (by decide)
    simpa using this

theorem lookupJ_sizeOf {kvs : List (String × J)} {k : String} {v : J}
    (h : lookupJ kvs k = some v) : sizeOf v < sizeOf kvs := by
  induction kvs with
  | nil => simp [lookupJ] at h
  | cons hd rest ih =>
    obtain ⟨k', v'⟩ := hd
    rw [lookupJ] at h
    by_cases he : k' == k
    · rw [if_pos he] at h
      obtain rfl : v' = v := by simpa using h
      simp
      omega
    · rw [if_neg he] at h
      have := ih h
      simp
      omega

theorem sizeOf_list_pos {α : Type} [SizeOf α] (l : List α) : 0 < sizeOf l := by
  cases l <;> simp

theorem _gcl_sizeOf {node : J} {cs : List J} {hl : J}
    (hg : _get_children_list node = .ok (cs, hl)) : sizeOf cs < sizeOf node := by
  cases node with
  | obj kvs =>
    have hpos := sizeOf_list_pos kvs
    simp only [_get_children_list] at hg
    cases hv : lookupJ kvs "children" with
    | none =>
      rw [hv] at hg
      simp at hg
      obtain ⟨h1, _⟩ := hg
      subst h1
      simp
      omega
    | some v =>
      rw [hv] at hg
      cases v with
      | null =>
        simp at hg
        obtain ⟨h1, _⟩ := hg
        subst h1
        simp
        omega
      | arr xs =>
        simp at hg
        obtain ⟨h1, _⟩ := hg
        subst h1
        have hlk := lookupJ_sizeOf hv
        simp at hlk
        simp
        omega
      | str s => simp at hg
      | int n => simp at hg
      | bool b => simp at hg
      | obj kvs2 => simp at hg
  | null => simp [_get_children_list] at hg
  | str s => simp [_get_children_list] at hg
  | int n => simp [_get_children_list] at hg
  | bool b => simp [_get_children_list] at hg
  | arr xs => simp [_get_children_list] at hg

/-- One match collected by `_find_nodes_by_title`:
`{"path": ..., "section_title": ...}`. -/
structure FMatch where
  path : List Nat
  section_title : J
deriving Inhabited

/-- The haystack for one node: the node's title (or `""` when falsy);
case-sensitive search uses it as is (a `TypeError` if it is not a string),
case-insensitive search lowercases its `str()` rendering. -/
def hayOf (case_sensitive : Bool) (title : J) : Except Err String :=
  if case_sensitive then
    match title with
    | .str s => .ok s
    | _ => .error (.valueError "TypeError: argument is not iterable")
  else .ok (lowerPy (pyStr title))

mutual
/-- The `walk` closure of `_find_nodes_by_title`: stop at the cap, test
the node's title, append a match, then recurse into dict children in
order (non-dict children are skipped). -/
def walk (q : String) (max_results : Int) (case_sensitive : Bool)
    (node : J) (path : List Nat) (results : List FMatch) :
    Except Err (List FMatch) :=
  if (results.length : Int) ≥ max_results then .ok results
  else
    match hayOf case_sensitive (pyOr (node.getPy "section_title") (.str "")) with
    | .error e => .error e
    | .ok hay =>
      let results1 := if strIn q hay then
          results ++ [⟨path, node.getPy "section_title"⟩] else results
      if strIn q hay ∧ (results1.length : Int) ≥ max_results then .ok results1
      else
        match hg : _get_children_list node with
        | .error e => .error e
        | .ok (children, _) =>
          walkChildren q max_results case_sensitive children path 0 results1
termination_by sizeOf node
decreasing_by exact _gcl_sizeOf hg

/-- The `for i, child in enumerate(children)` loop of `walk`. -/
def walkChildren (q : String) (max_results : Int) (case_sensitive : Bool)
    (l : List J) (path : List Nat) (i : Nat) (results : List FMatch) :
    Except Err (List FMatch) :=
  match l with
  | [] => .ok results
  | c :: rest =>
    if c.isObj then
      match walk q max_results case_sensitive c (path ++ [i]) results with
      | .error e => .error e
      | .ok results2 =>
        walkChildren q max_results case_sensitive rest path (i + 1) results2
    else walkChildren q max_results case_sensitive rest path (i + 1) results
termination_by sizeOf l
decreasing_by all_goals (simp; try omega)
end

/-- `_find_nodes_by_title`: empty query matches nothing; otherwise walk
the tree from `root` (skipped entirely when `root` is not a dict). -/
def _find_nodes_by_title (ast : J) (title_query : String)
    (max_results : Int) (case_sensitive : Bool) : Except Err (List FMatch) :=
  if title_query == "" then .ok []
  else
    let q := if case_sensitive then title_query else lowerPy title_query
    match ast with
    | .obj kvs =>
      match lookupJ kvs "root" with
      | some (.obj rkvs) => walk q max_results case_sensitive (.obj rkvs) [] []
      | _ => .ok []
    | _ => .error (.valueError "AttributeError: no attribute get")

mutual
/-- Modelled from the spec: the depth-first pre-order enumeration of a
tree's nodes with their paths (node before children, children in index
order), against which the search results are compared. -/
def preorderSpec : J → List Nat → List (List Nat × J)
  | node, path =>
    match node with
    | .obj kvs =>
      match hv : lookupJ kvs "children" with
      | some (.arr xs) => (path, node) :: preorderChildren xs path 0
      | _ => [(path, node)]
    | _ => [(path, node)]
termination_by node path => sizeOf node
decreasing_by
  have := lookupJ_sizeOf hv
  simp at this
  simp
  omega

/-- Pre-order enumeration of a children list starting at index `i`. -/
def preorderChildren : List J → List Nat → Nat → List (List Nat × J)
  | [], _, _ => []
  | c :: rest, path, i =>
    preorderSpec c (path ++ [i]) ++ preorderChildren rest path (i + 1)
termination_by l path i => sizeOf l
decreasing_by all_goals (simp; try omega)
end

/-- The arguments of the `ast_store` tool (`ASTStoreArgs`).  `ast_path`
names the persisted location; the store's content stands apart as the
dispatcher's `store` argument. -/
structure Args where
  action : String
  ast_path : String
  file_name : Option String
  root_title : Option String
  root_summary : String
  node_path : Option (List Int)
  parent_path : Option (List Int)
  section_title : Option String
  content_summary : Option String
  append_text : Option String
  position : Option Int
  title_query : Option String
  max_results : Int
  case_sensitive : Bool

/-- `_normalize_path_indices`. -/
def _normalize_path_indices : Option (List Int) → List Int
  | none => []
  | some l => l

/-- Python falsiness of an optional string (`not x`). -/
def optFalsy : Option String → Bool
  | none => true
  | some s => s == ""

/-- A node path rendered into the JSON response. -/
def pathToJ (p : List Int) : J := .arr (p.map J.int)

/-- One find match rendered into the JSON response. -/
def matchToJ (m : FMatch) : J :=
  .obj [("path", .arr (m.path.map (fun i => J.int (i : Int)))),
        ("section_title", m.section_title)]

/-- A success response: `{"ok": true, ...fields}`. -/
def okResp (fields : List (String × J)) : J := .obj (("ok", .bool true) :: fields)

/-- A failure response: `{"ok": false, "error": msg}` (produced both by the
in-branch early returns and by the boundary `except` handler). -/
def errResp (msg : String) : J := .obj [("ok", .bool false), ("error", .str msg)]

/-- The fresh document written by `init`: `root_title or file_name` is the
root's title, `root_summary or ""` its summary, the children list empty. -/
def init_ast (fn : String) (root_title : Option String)
    (root_summary : String) : J :=
  .obj [("file_name", .str fn),
    ("root", _make_node
      (some (match root_title with
             | some t => pyOrS t fn
             | none => fn))
      (pyOrS root_summary ""))]

/-- The `ast_store` tool: dispatch one action against the persisted store.
`store` is the parsed content of the file at `ast_path` (`none` when the
file does not exist); `now` stands for `_utc_now_iso()`.  Returns the JSON
response and the new store content (unchanged when nothing was written).
Python exceptions travel as `Except.error` inside the branches and are
converted to `{"ok": false, "error": str(e)}` at this boundary, exactly
like the source's single `try/except`. -/
def ast_store (a : Args) (now : String) (store : Option J) : J × Option J :=
  if a.action == "init" then
    match a.file_name with
    | none => (errResp "file_name is required for action=init", store)
    | some fn =>
      if fn == "" then (errResp "file_name is required for action=init", store)
      else
        (okResp [("action", .str "init"), ("ast_path", .str a.ast_path),
          ("file_name", .str fn), ("updated_at", .str now)],
          some (init_ast fn a.root_title a.root_summary))
  else
    match store with
    | none =>
      (errResp s!"AST file not found: {a.ast_path}. Call action=init first.", store)
    | some ast =>
      if a.action == "load" then
        (okResp [("action", .str "load"), ("ast", ast)], store)
      else if a.action == "load_subtree" then
        match _traverse ast (_normalize_path_indices a.node_path) with
        | .error e => (errResp e.toMessage, store)
        | .ok ref =>
          (okResp [("action", .str "load_subtree"),
            ("node_path", pathToJ (_normalize_path_indices a.node_path)),
            ("node", ref.node)], store)
      else if a.action == "find_by_title" then
        let q := match a.title_query with | some s => pyOrS s "" | none => ""
        match _find_nodes_by_title ast q (max 1 a.max_results) a.case_sensitive with
        | .error e => (errResp e.toMessage, store)
        | .ok ms =>
          (okResp [("action", .str "find_by_title"), ("title_query", .str q),
            ("matches", .arr (ms.map matchToJ))], store)
      else if a.action == "append_child" then
        match a.content_summary with
        | none => (errResp "content_summary is required for action=append_child", store)
        | some sum =>
          match append_child_op ast (_normalize_path_indices a.parent_path)
              a.section_title sum a.position with
          | .error e => (errResp e.toMessage, store)
          | .ok (.reject m) => (errResp m, store)
          | .ok (.accept (newPath, ast1)) =>
            (okResp [("action", .str "append_child"),
              ("parent_path", pathToJ (_normalize_path_indices a.parent_path)),
              ("new_node_path", pathToJ newPath),
              ("updated_at", .str now)], some ast1)
      else if a.action == "upsert_child_by_title" then
        match a.section_title with
        | none => (errResp "section_title is required for action=upsert_child_by_title", store)
        | some st =>
          if st == "" then
            (errResp "section_title is required for action=upsert_child_by_title", store)
          else
            match a.content_summary with
            | none =>
              (errResp "content_summary is required for action=upsert_child_by_title", store)
            | some sum =>
              match upsert_child_by_title_op ast
                  (_normalize_path_indices a.parent_path) st sum with
              | .error e => (errResp e.toMessage, store)
              | .ok (.reject m) => (errResp m, store)
              | .ok (.accept ((op, npath), ast1)) =>
                (okResp [("action", .str "upsert_child_by_title"),
                  ("parent_path", pathToJ (_normalize_path_indices a.parent_path)),
                  ("node_path", pathToJ npath), ("op", .str op),
                  ("updated_at", .str now)], some ast1)
      else if a.action == "update_node" then
        match a.section_title, a.content_summary with
        | none, none =>
          (errResp "section_title and/or content_summary must be provided for action=update_node", store)
        | st, csum =>
          match update_node_op ast (_normalize_path_indices a.node_path) st csum with
          | .error e => (errResp e.toMessage, store)
          | .ok (.reject m) => (errResp m, store)
          | .ok (.accept (_, ast1)) =>
            (okResp [("action", .str "update_node"),
              ("node_path", pathToJ (_normalize_path_indices a.node_path)),
              ("updated_at", .str now)], some ast1)
      else if a.action == "append_to_summary" then
        match a.append_text with
        | none => (errResp "append_text is required for action=append_to_summary", store)
        | some txt =>
          match append_to_summary_op ast (_normalize_path_indices a.node_path) txt with
          | .error e => (errResp e.toMessage, store)
          | .ok (.reject m) => (errResp m, store)
          | .ok (.accept (_, ast1)) =>
            (okResp [("action", .str "append_to_summary"),
              ("node_path", pathToJ (_normalize_path_indices a.node_path)),
              ("updated_at", .str now)], some ast1)
      else (errResp s!"Unknown action: {a.action}", store)

/-- C4: with `position` omitted, a successful `append_child` under a
resolvable parent returns `new_node_path = parent_path ++ [n]` where `n`
is the old children count (the new length minus one), and `load_subtree`
of that path against the written tree returns exactly the inserted node:
the given title, the given summary, and an empty children list. -/
theorem C4_append_then_load_subtree (ast : J) (P : List Int)
    (st : Option String) (sum : String) (now asp : String)
    (ref : _NodeRef) (cs : List J) (hp : J)
    (htrav : _traverse ast P = .ok ref)
    (hch : _get_children_list ref.node = .ok (cs, hp)) :
    ∃ ast1,
      append_child_op ast P st sum none =
        .ok (.accept (P ++ [(cs.length : Int)], ast1)) ∧
      ast_store ⟨"load_subtree", asp, none, none, "",
          some (P ++ [(cs.length : Int)]),
          none, none, none, none, none, none, 20, false⟩ now (some ast1) =
        (okResp [("action", .str "load_subtree"),
          ("node_path", pathToJ (P ++ [(cs.length : Int)])),
          ("node", _make_node st sum)], some ast1) := by
  have hget : getNodeRoot ast P = .ok ref.node := by
    rw [← _traverse_node_eq, htrav]; rfl
  have hpobj : hp.isObj = true := _gcl_healed_obj hch
  have hf : append_child_body P st sum none ref.node =
      .ok (.accept (P ++ [(cs.length : Int)],
        hp.setField "children" (.arr (cs ++ [_make_node st sum])))) := by
    rw [append_child_body, hch]
  have hobj : (hp.setField "children" (.arr (cs ++ [_make_node st sum]))).isObj
      = true := by
    rw [isObj_setField]; exact hpobj
  obtain ⟨ast1, hm, hget1⟩ := modifyRoot_accept_full hget hf hobj
  have hnode : getNodeRoot ast1 (P ++ [(cs.length : Int)]) =
      .ok (_make_node st sum) := by
    rw [getNodeRoot_append, hget1]
    dsimp only
    rw [getNode, _gcl_of_setChildren hpobj]
    dsimp only
    have hb : ¬ ((decide ((cs.length : Int) < 0) ||
        decide (((cs ++ [_make_node st sum]).length : Int) ≤ (cs.length : Int)))
          = true) := by
      simp only [Bool.or_eq_true, decide_eq_true_eq, not_or, List.length_append,
        List.length_cons, List.length_nil]
      push_cast
      omega
    rw [if_neg hb]
    have htn : ((cs.length : Int)).toNat = cs.length := by omega
    rw [htn, List.getElem?_concat_length]
    dsimp only
    rw [if_pos (by simp [_make_node, J.isObj])]
    rfl
  obtain ⟨r1, htr1, hr1node⟩ :=
    map_node_ok (x := _traverse ast1 (P ++ [(cs.length : Int)]))
      (by rw [_traverse_node_eq]; exact hnode)
  refine ⟨ast1, hm, ?_⟩
  rw [show ast_store ⟨"load_subtree", asp, none, none, "",
      some (P ++ [(cs.length : Int)]),
      none, none, none, none, none, none, 20, false⟩ now (some ast1) =
      (match _traverse ast1 (P ++ [(cs.length : Int)]) with
       | .error e => (errResp e.toMessage, some ast1)
       | .ok ref =>
         (okResp [("action", .str "load_subtree"),
           ("node_path", pathToJ (P ++ [(cs.length : Int)])),
           ("node", ref.node)], some ast1)) from rfl]
  rw [htr1]
  dsimp only
  rw [hr1node]

/-- Witness for C4 at a concrete input: appending under the root of a
fresh single-node tree yields path `[0]`, and `load_subtree [0]` returns
the inserted node. -/
theorem C4_append_then_load_subtree_witness :
    ∃ ast1,
      append_child_op (mkAst "d" (mkNode .null (.str "r") [])) []
          (some "S") "txt" none =
        .ok (.accept ([0], ast1)) ∧
      ast_store ⟨"load_subtree", "ast_state.json", none, none, "", some [0],
          none, none, none, none, none, none, 20, false⟩ "t0" (some ast1) =
        (okResp [("action", .str "load_subtree"),
          ("node_path", pathToJ [0]),
          ("node", _make_node (some "S") "txt")], some ast1) := by
  have h := C4_append_then_load_subtree (mkAst "d" (mkNode .null (.str "r") []))
    [] (some "S") "txt" "t0" "ast_state.json"
    ⟨mkNode .null (.str "r") [], none, none⟩ [] (mkNode .null (.str "r") [])
    (by rfl) (by rfl)
  simpa using h

theorem pyOrS_empty_right (s : String) : pyOrS s "" = s := by
  by_cases h : s = "" <;> simp [pyOrS, h]

/-- C5 (amended: `file_name` must be non-empty — an empty one fails init's
validation — and an explicitly given EMPTY `root_title` also falls back to
`file_name`, exactly like an omitted one): `init` overwrites whatever was
stored before with a fresh tree (create-or-reset), and `load` then returns
that tree; its root title is the given `root_title` when that is a
non-empty string and `file_name` otherwise, its root summary is the given
`root_summary` verbatim, and its root children list is empty. -/
theorem C5_init_then_load (fn : String) (rt : Option String) (rs : String)
    (asp now now2 : String) (store : Option J) (hfn : fn ≠ "") :
    ast_store ⟨"init", asp, some fn, rt, rs, none, none, none, none, none,
        none, none, 20, false⟩ now store =
      (okResp [("action", .str "init"), ("ast_path", .str asp),
        ("file_name", .str fn), ("updated_at", .str now)],
        some (init_ast fn rt rs)) ∧
    ast_store ⟨"load", asp, none, none, "", none, none, none, none, none,
        none, none, 20, false⟩ now2 (some (init_ast fn rt rs)) =
      (okResp [("action", .str "load"), ("ast", init_ast fn rt rs)],
        some (init_ast fn rt rs)) ∧
    ((init_ast fn rt rs).getPy "root").getPy "content_summary" = .str rs ∧
    ((init_ast fn rt rs).getPy "root").getPy "children" = .arr [] ∧
    (rt = none →
      ((init_ast fn rt rs).getPy "root").getPy "section_title" = .str fn) ∧
    (rt = some "" →
      ((init_ast fn rt rs).getPy "root").getPy "section_title" = .str fn) ∧
    (∀ t, rt = some t → t ≠ "" →
      ((init_ast fn rt rs).getPy "root").getPy "section_title" = .str t) := by
  have hbe : (fn == "") = false := by simpa using hfn
  refine ⟨?_, ?_, ?_, ?_, ?_, ?_, ?_⟩
  · rw [show ast_store ⟨"init", asp, some fn, rt, rs, none, none, none, none,
        none, none, none, 20, false⟩ now store =
        (if fn == "" then (errResp "file_name is required for action=init", store)
         else (okResp [("action", .str "init"), ("ast_path", .str asp),
           ("file_name", .str fn), ("updated_at", .str now)],
           some (init_ast fn rt rs))) from rfl]
    rw [hbe]
    rfl
  · rfl
  · simp [init_ast, J.getPy, lookupJ, _make_node, pyOrS_empty_right]
  · simp [init_ast, J.getPy, lookupJ, _make_node]
  · intro h
    subst h
    simp [init_ast, J.getPy, lookupJ, _make_node]
  · intro h
    subst h
    simp [init_ast, J.getPy, lookupJ, _make_node, pyOrS]
  · intro t h ht
    subst h
    simp [init_ast, J.getPy, lookupJ, _make_node, pyOrS, ht]

/-- Witness for C5 at concrete inputs (the prior store holds unrelated
content, which init overwrites). -/
theorem C5_init_then_load_witness :
    ast_store ⟨"init", "a.json", some "doc", some "T", "sum", none, none,
        none, none, none, none, none, 20, false⟩ "t0" (some (.int 5)) =
      (okResp [("action", .str "init"), ("ast_path", .str "a.json"),
        ("file_name", .str "doc"), ("updated_at", .str "t0")],
        some (init_ast "doc" (some "T") "sum")) ∧
    ast_store ⟨"load", "a.json", none, none, "", none, none, none, none,
        none, none, none, 20, false⟩ "t1"
        (some (init_ast "doc" (some "T") "sum")) =
      (okResp [("action", .str "load"), ("ast", init_ast "doc" (some "T") "sum")],
        some (init_ast "doc" (some "T") "sum")) ∧
    ((init_ast "doc" (some "T") "sum").getPy "root").getPy "content_summary" =
      .str "sum" ∧
    ((init_ast "doc" (some "T") "sum").getPy "root").getPy "children" =
      .arr [] ∧
    ((init_ast "doc" (some "T") "sum").getPy "root").getPy "section_title" =
      .str "T" := by
  have h := C5_init_then_load "doc" (some "T") "sum" "a.json" "t0" "t1"
    (some (.int 5)) (by decide)
  exact ⟨h.1, h.2.1, h.2.2.1, h.2.2.2.1, h.2.2.2.2.2.2 "T" rfl (by decide)⟩

/-- Counterexample to C5 as frozen: with `root_title` given as the empty
string, the stored root title is `file_name`, not the given `root_title`;
and with `file_name = ""`, init fails instead of producing a tree. -/
theorem C5_counterexample :
    ast_store ⟨"init", "a.json", some "doc", some "", "", none, none, none,
        none, none, none, none, 20, false⟩ "t0" none =
      (okResp [("action", .str "init"), ("ast_path", .str "a.json"),
        ("file_name", .str "doc"), ("updated_at", .str "t0")],
        some (init_ast "doc" (some "") "")) ∧
    ((init_ast "doc" (some "") "").getPy "root").getPy "section_title" =
      .str "doc" ∧
    ¬ ((J.str "doc") = (J.str "")) ∧
    ast_store ⟨"init", "a.json", some "", none, "", none, none, none,
        none, none, none, none, 20, false⟩ "t0" none =
      (errResp "file_name is required for action=init", none) := by
  refine ⟨rfl, rfl, ?_, rfl⟩
  simp

/-- A title or summary value conforming to the data model: a string or
null/absent. -/
def isWFTitle : J → Bool
  | .null => true
  | .str _ => true
  | _ => false

/-- Conformance to the spec's data model (§3): a node is an object with
the fields `section_title` (string or null), `content_summary` (string or
null) and `children` (a present list of conforming nodes) — the shape
`_make_node` produces and `init` persists. -/
inductive WF : J → Prop where
  | mk (st sm : J) (cs : List J) : isWFTitle st = true → isWFTitle sm = true →
      (∀ c ∈ cs, WF c) → WF (mkNode st sm cs)

/-- The two text fields of a node, for frame statements. -/
def fieldsOf (j : J) : J × J := (j.getPy "section_title", j.getPy "content_summary")

theorem WF_elim {j : J} (h : WF j) :
    ∃ st sm cs, j = mkNode st sm cs ∧ isWFTitle st = true ∧
      isWFTitle sm = true ∧ (∀ c ∈ cs, WF c) := by
  cases h with
  | mk st sm cs h1 h2 h3 => exact ⟨st, sm, cs, rfl, h1, h2, h3⟩

theorem mkNode_gcl (st sm : J) (cs : List J) :
    _get_children_list (mkNode st sm cs) = .ok (cs, mkNode st sm cs) := by
  simp [mkNode, _get_children_list, lookupJ]

theorem mkNode_isObj (st sm : J) (cs : List J) :
    (mkNode st sm cs).isObj = true := by
  simp [mkNode, J.isObj]

theorem mkNode_getPy_children (st sm : J) (cs : List J) :
    (mkNode st sm cs).getPy "children" = .arr cs := by
  simp [mkNode, J.getPy, lookupJ]

theorem WF_isObj {j : J} (h : WF j) : j.isObj = true := by
  obtain ⟨st, sm, cs, rfl, -, -, -⟩ := WF_elim h
  exact mkNode_isObj st sm cs

theorem _gcl_of_getPy_arr {j : J} {cs : List J} (hobj : j.isObj = true)
    (h : j.getPy "children" = .arr cs) :
    _get_children_list j = .ok (cs, j) := by
  cases j with
  | obj kvs =>
    simp only [J.getPy] at h
    cases hl : lookupJ kvs "children" with
    | none => rw [hl] at h; simp at h
    | some v =>
      rw [hl] at h
      dsimp only at h
      subst h
      simp [_get_children_list, hl]
  | null => simp [J.isObj] at hobj
  | str s => simp [J.isObj] at hobj
  | int n => simp [J.isObj] at hobj
  | bool b => simp [J.isObj] at hobj
  | arr xs => simp [J.isObj] at hobj

theorem getNode_WF (P : List Int) :
    ∀ {node t : J}, WF node → getNode node P = .ok t → WF t := by
  induction P with
  | nil =>
    intro node t hwf hget
    obtain rfl : node = t := by simpa [getNode] using hget
    exact hwf
  | cons idx rest ih =>
    intro node t hwf hget
    obtain ⟨st, sm, cs, rfl, -, -, hcs⟩ := WF_elim hwf
    rw [getNode, mkNode_gcl] at hget
    dsimp only at hget
    by_cases hb : (decide (idx < 0) || decide ((cs.length : Int) ≤ idx)) = true
    · rw [if_pos hb] at hget; exact absurd hget (by simp)
    · rw [if_neg hb] at hget
      cases hc : cs[idx.toNat]? with
      | none => rw [hc] at hget; exact absurd hget (by simp)
      | some c =>
        rw [hc] at hget
        dsimp only at hget
        by_cases ho : c.isObj = true
        · rw [if_pos ho] at hget
          exact ih (hcs c (List.getElem?_mem hc)) hget
        · rw [if_neg ho] at hget; exact absurd hget (by simp)

theorem getNode_cons_children {x y hx' hy' : J} {cs : List J}
    (hx : _get_children_list x = .ok (cs, hx'))
    (hy : _get_children_list y = .ok (cs, hy'))
    (j : Int) (R : List Int) : getNode x (j :: R) = getNode y (j :: R) := by
  rw [getNode, hx, getNode, hy]

/-- Frame property of a mutation whose body leaves the target's children
untouched (such as `update_node`): at every other path, the two text
fields of the addressed node are unchanged; resolvability is unchanged
with them. -/
theorem modifyAt_frame {A : Type} (P : List Int) :
    ∀ (node : J) (f : J → Except Err (Step (A × J))) (a : A) (t t1 node1 : J),
      WF node →
      getNode node P = .ok t →
      f t = .ok (.accept (a, t1)) →
      t1.getPy "children" = t.getPy "children" →
      t1.isObj = true →
      modifyAt f node P = .ok (.accept (a, node1)) →
      ∀ Q, Q ≠ P →
        (getNode node1 Q).map fieldsOf = (getNode node Q).map fieldsOf := by
  induction P with
  | nil =>
    intro node f a t t1 node1 hwf hget hf hcheq hobj hm Q hQ
    obtain rfl : node = t := by simpa [getNode] using hget
    rw [modifyAt, hf] at hm
    have h1 : t1 = node1 := by simpa using hm
    subst h1
    cases Q with
    | nil => exact absurd rfl hQ
    | cons j R =>
      obtain ⟨st, sm, cs, rfl, -, -, -⟩ := WF_elim hwf
      rw [mkNode_getPy_children] at hcheq
      have hgc1 : _get_children_list t1 = .ok (cs, t1) :=
        _gcl_of_getPy_arr hobj hcheq
      rw [getNode_cons_children hgc1 (mkNode_gcl st sm cs) j R]
  | cons i P' ih =>
    intro node f a t t1 node1 hwf hget hf hcheq hobj hm Q hQ
    obtain ⟨st, sm, cs, rfl, -, -, hcs⟩ := WF_elim hwf
    rw [modifyAt, mkNode_gcl] at hm
    dsimp only at hm
    rw [getNode, mkNode_gcl] at hget
    dsimp only at hget
    by_cases hb : (decide (i < 0) || decide ((cs.length : Int) ≤ i)) = true
    · rw [if_pos hb] at hm; exact absurd hm (by simp)
    · rw [if_neg hb] at hm
      rw [if_neg hb] at hget
      cases hc : cs[i.toNat]? with
      | none => rw [hc] at hm; exact absurd hm (by simp)
      | some c =>
        rw [hc] at hm
        rw [hc] at hget
        dsimp only at hm hget
        by_cases ho : c.isObj = true
        · rw [if_pos ho] at hm hget
          cases hrec : modifyAt f c P' with
          | error e => rw [hrec] at hm; exact absurd hm (by simp)
          | ok st' =>
            cases st' with
            | reject m => rw [hrec] at hm; exact absurd hm (by simp)
            | accept q =>
              obtain ⟨a', c'⟩ := q
              rw [hrec] at hm
              dsimp only at hm
              simp only [Except.ok.injEq, Step.accept.injEq, Prod.mk.injEq] at hm
              obtain ⟨ha1, ha2⟩ := hm
              rw [ha1] at hrec
              obtain ⟨tt, tt1, hget'', hf'', himp''⟩ := modifyAt_ok P' c f a c' hrec
              rw [hget] at hget''
              have htt : tt = t := by simpa using hget''.symm
              rw [htt] at hf''
              rw [hf] at hf''
              have htt1 : tt1 = t1 := by
                simp only [Except.ok.injEq, Step.accept.injEq, Prod.mk.injEq] at hf''
                exact hf''.2.symm
              rw [htt1] at himp''
              obtain ⟨hc'obj, -⟩ := himp'' hobj
              have hwfc : WF c := hcs c (List.getElem?_mem hc)
              have hbounds := hb
              simp only [Bool.or_eq_true, decide_eq_true_eq, not_or] at hbounds
              have hlt : i.toNat < cs.length := by omega
              have hgcl1 : _get_children_list node1 =
                  .ok (cs.set i.toNat c', node1) := by
                rw [← ha2]
                exact _gcl_of_setChildren (mkNode_isObj st sm cs) _
              cases Q with
              | nil =>
                simp only [getNode, Except.map]
                rw [← ha2]
                simp [fieldsOf, mkNode, J.setField, J.getPy, setKV, lookupJ]
              | cons j Q' =>
                rw [getNode, hgcl1, getNode, mkNode_gcl]
                dsimp only
                rw [List.length_set]
                by_cases hjb : (decide (j < 0) ||
                    decide ((cs.length : Int) ≤ j)) = true
                · rw [if_pos hjb, if_pos hjb]
                · rw [if_neg hjb, if_neg hjb]
                  have hjbounds := hjb
                  simp only [Bool.or_eq_true, decide_eq_true_eq, not_or] at hjbounds
                  have hjlt : j.toNat < cs.length := by omega
                  by_cases hji : j.toNat = i.toNat
                  · have hij : j = i := by omega
                    have hQ' : Q' ≠ P' := by
                      intro hx; exact hQ (by rw [hij, hx])
                    rw [hji, List.getElem?_set_self hlt, hc]
                    dsimp only
                    rw [if_pos hc'obj, if_pos ho]
                    exact ih c f a t t1 c' hwfc hget hf hcheq hobj hrec Q' hQ'
                  · rw [List.getElem?_set_ne (fun hx => hji hx.symm)]
        · rw [if_neg ho] at hm; exact absurd hm (by simp)

theorem modifyRoot_frame {A : Type} {ast : J} {P : List Int}
    {f : J → Except Err (Step (A × J))} {a : A} {t t1 ast1 : J}
    (hwf : WF (ast.getPy "root"))
    (hget : getNodeRoot ast P = .ok t)
    (hf : f t = .ok (.accept (a, t1)))
    (hcheq : t1.getPy "children" = t.getPy "children")
    (hobj : t1.isObj = true)
    (hm : modifyRoot f ast P = .ok (.accept (a, ast1))) :
    ∀ Q, Q ≠ P →
      (getNodeRoot ast1 Q).map fieldsOf = (getNodeRoot ast Q).map fieldsOf := by
  intro Q hQ
  rw [modifyRoot] at hm
  rw [getNodeRoot] at hget
  cases hr : ast.getPy "root" with
  | obj kvs =>
    rw [hr] at hm hget hwf
    dsimp only at hm hget
    cases hma : modifyAt f (.obj kvs) P with
    | error e => rw [hma] at hm; exact absurd hm (by simp)
    | ok st' =>
      cases st' with
      | reject m => rw [hma] at hm; exact absurd hm (by simp)
      | accept q =>
        obtain ⟨a', r'⟩ := q
        rw [hma] at hm
        dsimp only at hm
        simp only [Except.ok.injEq, Step.accept.injEq, Prod.mk.injEq] at hm
        obtain ⟨ha1, ha2⟩ := hm
        rw [ha1] at hma
        obtain ⟨tt, tt1, hget'', hf'', himp''⟩ := modifyAt_ok P (.obj kvs) f a r' hma
        rw [hget] at hget''
        have htt : tt = t := by simpa using hget''.symm
        rw [htt, hf] at hf''
        have htt1 : tt1 = t1 := by
          simp only [Except.ok.injEq, Step.accept.injEq, Prod.mk.injEq] at hf''
          exact hf''.2.symm
        rw [htt1] at himp''
        obtain ⟨hr'obj, -⟩ := himp'' hobj
        have hframe := modifyAt_frame P (.obj kvs) f a t t1 r' hwf hget hf
          hcheq hobj hma Q hQ
        have hastobj : ast.isObj = true := getPy_obj_src hr
        have hget1 : ast1.getPy "root" = r' := by
          rw [← ha2]; exact getPy_setField_self ast "root" r' hastobj
        rw [getNodeRoot, hget1, getNodeRoot, hr]
        cases hr' : r' with
        | obj rkvs =>
          rw [hr'] at hframe
          exact hframe
        | null => simp [hr', J.isObj] at hr'obj
        | str s => simp [hr', J.isObj] at hr'obj
        | int n => simp [hr', J.isObj] at hr'obj
        | bool b => simp [hr', J.isObj] at hr'obj
        | arr xs => simp [hr', J.isObj] at hr'obj
  | null => rw [hr] at hget; exact absurd hget (by simp)
  | str s => rw [hr] at hget; exact absurd hget (by simp)
  | int n => rw [hr] at hget; exact absurd hget (by simp)
  | bool b => rw [hr] at hget; exact absurd hget (by simp)
  | arr xs => rw [hr] at hget; exact absurd hget (by simp)

/-- C7: `update_node` with both fields absent is rejected by validation
and the stored tree is unchanged; with exactly one field supplied, that
field of the addressed node is replaced and the other field, the node's
children, and the two text fields of every other node of the tree are
left unchanged. -/
theorem C7_update_node (ast : J) (P : List Int) (asp now : String)
    (ref : _NodeRef)
    (hwf : WF (ast.getPy "root"))
    (htrav : _traverse ast P = .ok ref) :
    (ast_store ⟨"update_node", asp, none, none, "", some P, none, none,
        none, none, none, none, 20, false⟩ now (some ast) =
      (errResp "section_title and/or content_summary must be provided for action=update_node",
        some ast)) ∧
    (∀ v, ∃ ast1,
      update_node_op ast P (some v) none = .ok (.accept ((), ast1)) ∧
      getNodeRoot ast1 P = .ok (ref.node.setField "section_title" (.str v)) ∧
      (ref.node.setField "section_title" (.str v)).getPy "content_summary" =
        ref.node.getPy "content_summary" ∧
      (ref.node.setField "section_title" (.str v)).getPy "children" =
        ref.node.getPy "children" ∧
      (∀ Q, Q ≠ P →
        (getNodeRoot ast1 Q).map fieldsOf = (getNodeRoot ast Q).map fieldsOf)) ∧
    (∀ v, ∃ ast1,
      update_node_op ast P none (some v) = .ok (.accept ((), ast1)) ∧
      getNodeRoot ast1 P = .ok (ref.node.setField "content_summary" (.str v)) ∧
      (ref.node.setField "content_summary" (.str v)).getPy "section_title" =
        ref.node.getPy "section_title" ∧
      (ref.node.setField "content_summary" (.str v)).getPy "children" =
        ref.node.getPy "children" ∧
      (∀ Q, Q ≠ P →
        (getNodeRoot ast1 Q).map fieldsOf = (getNodeRoot ast Q).map fieldsOf)) := by
  have hget : getNodeRoot ast P = .ok ref.node := by
    rw [← _traverse_node_eq, htrav]; rfl
  have hwfnode : WF ref.node := by
    rw [getNodeRoot] at hget
    cases hr : ast.getPy "root" with
    | obj kvs =>
      rw [hr] at hget hwf
      dsimp only at hget
      exact getNode_WF P hwf hget
    | null => rw [hr] at hget; exact absurd hget (by simp)
    | str s => rw [hr] at hget; exact absurd hget (by simp)
    | int n => rw [hr] at hget; exact absurd hget (by simp)
    | bool b => rw [hr] at hget; exact absurd hget (by simp)
    | arr xs => rw [hr] at hget; exact absurd hget (by simp)
  have hrefobj : ref.node.isObj = true := WF_isObj hwfnode
  refine ⟨rfl, ?_, ?_⟩
  · intro v
    have hf : update_node_body (some v) none ref.node =
        .ok (.accept ((), ref.node.setField "section_title" (.str v))) := rfl
    have hobj : (ref.node.setField "section_title" (.str v)).isObj = true := by
      rw [isObj_setField]; exact hrefobj
    obtain ⟨ast1, hm, hget1⟩ := modifyRoot_accept_full hget hf hobj
    refine ⟨ast1, hm, hget1,
      getPy_setField_ne _ _ _ _ (by decide),
      getPy_setField_ne _ _ _ _ (by decide), ?_⟩
    exact modifyRoot_frame hwf hget hf
      (getPy_setField_ne _ _ _ _ (by decide)) hobj hm
  · intro v
    have hf : update_node_body none (some v) ref.node =
        .ok (.accept ((), ref.node.setField "content_summary" (.str v))) := rfl
    have hobj : (ref.node.setField "content_summary" (.str v)).isObj = true := by
      rw [isObj_setField]; exact hrefobj
    obtain ⟨ast1, hm, hget1⟩ := modifyRoot_accept_full hget hf hobj
    refine ⟨ast1, hm, hget1,
      getPy_setField_ne _ _ _ _ (by decide),
      getPy_setField_ne _ _ _ _ (by decide), ?_⟩
    exact modifyRoot_frame hwf hget hf
      (getPy_setField_ne _ _ _ _ (by decide)) hobj hm

/-- Witness for C7 at a concrete input: on a two-child tree, the
no-fields call fails with the store unchanged; a title-only update of
child `[0]` replaces just that title, and the sibling `[1]` keeps its
fields. -/
theorem C7_update_node_witness :
    (ast_store ⟨"update_node", "a.json", none, none, "", some [0], none,
        none, none, none, none, none, 20, false⟩ "t0"
        (some (mkAst "d" (mkNode (.str "R") (.str "rs")
          [mkNode (.str "A") (.str "as") [], mkNode (.str "B") (.str "bs") []]))) =
      (errResp "section_title and/or content_summary must be provided for action=update_node",
        some (mkAst "d" (mkNode (.str "R") (.str "rs")
          [mkNode (.str "A") (.str "as") [], mkNode (.str "B") (.str "bs") []])))) ∧
    ∃ ast1,
      update_node_op (mkAst "d" (mkNode (.str "R") (.str "rs")
          [mkNode (.str "A") (.str "as") [], mkNode (.str "B") (.str "bs") []]))
          [0] (some "NEW") none = .ok (.accept ((), ast1)) ∧
      getNodeRoot ast1 [0] = .ok (mkNode (.str "NEW") (.str "as") []) ∧
      (getNodeRoot ast1 [1]).map fieldsOf =
        (getNodeRoot (mkAst "d" (mkNode (.str "R") (.str "rs")
          [mkNode (.str "A") (.str "as") [], mkNode (.str "B") (.str "bs") []]))
          [1]).map fieldsOf := by
  have hwf : WF ((mkAst "d" (mkNode (.str "R") (.str "rs")
      [mkNode (.str "A") (.str "as") [], mkNode (.str "B") (.str "bs") []])).getPy
        "root") := by
    show WF (mkNode (.str "R") (.str "rs")
      [mkNode (.str "A") (.str "as") [], mkNode (.str "B") (.str "bs") []])
    refine WF.mk _ _ _ rfl rfl ?_
    intro c hc
    simp only [List.mem_cons, List.not_mem_nil, or_false] at hc
    rcases hc with rfl | rfl
    · exact WF.mk _ _ _ rfl rfl (by intro c hc; simp at hc)
    · exact WF.mk _ _ _ rfl rfl (by intro c hc; simp at hc)
  have h := C7_update_node (mkAst "d" (mkNode (.str "R") (.str "rs")
      [mkNode (.str "A") (.str "as") [], mkNode (.str "B") (.str "bs") []]))
    [0] "a.json" "t0"
    ⟨mkNode (.str "A") (.str "as") [],
      some (mkNode (.str "R") (.str "rs")
        [mkNode (.str "A") (.str "as") [], mkNode (.str "B") (.str "bs") []]),
      some 0⟩
    hwf (by rfl)
  obtain ⟨ast1, hm, hget1, -, -, hframe⟩ := h.2.1 "NEW"
  exact ⟨h.1, ast1, hm, hget1.trans rfl, hframe [1] (by decide)⟩

theorem _traverse_go_isObj (path : List Int) :
    ∀ (cur : J) (par : Option J) (ip : Option Int) (r : _NodeRef),
      cur.isObj = true → _traverse_go cur par ip path = .ok r →
      r.node.isObj = true := by
  induction path with
  | nil =>
    intro cur par ip r hobj h
    have : r.node = cur := by
      have := congrArg (fun x => match x with
        | Except.ok rr => _NodeRef.node rr
        | _ => cur) h
      simpa using this.symm
    rw [this]; exact hobj
  | cons idx rest ih =>
    intro cur par ip r hobj h
    rw [_traverse_go] at h
    cases hg : _get_children_list cur with
    | error e => rw [hg] at h; exact absurd h (by simp)
    | ok p =>
      obtain ⟨children, healed⟩ := p
      rw [hg] at h
      dsimp only at h
      by_cases hb : (decide (idx < 0) || decide ((children.length : Int) ≤ idx)) = true
      · rw [if_pos hb] at h; exact absurd h (by simp)
      · rw [if_neg hb] at h
        cases hc : children[idx.toNat]? with
        | none => rw [hc] at h; exact absurd h (by simp)
        | some c =>
          rw [hc] at h
          dsimp only at h
          by_cases ho : c.isObj = true
          · rw [if_pos ho] at h
            exact ih c (some healed) (some idx) r ho h
          · rw [if_neg ho] at h; exact absurd h (by simp)

theorem _traverse_isObj {ast : J} {P : List Int} {r : _NodeRef}
    (h : _traverse ast P = .ok r) : r.node.isObj = true := by
  rw [_traverse] at h
  cases hr : ast.getPy "root" with
  | obj kvs =>
    rw [hr] at h
    exact _traverse_go_isObj P (.obj kvs) none none r (by simp [J.isObj]) h
  | null => rw [hr] at h; exact absurd h (by simp)
  | str s => rw [hr] at h; exact absurd h (by simp)
  | int n => rw [hr] at h; exact absurd h (by simp)
  | bool b => rw [hr] at h; exact absurd h (by simp)
  | arr xs => rw [hr] at h; exact absurd h (by simp)

theorem rstripPy_all_space {s : String} (h : s.data.all isPySpace = true) :
    rstripPy s = "" := by
  unfold rstripPy
  have hnil : s.data.reverse.dropWhile isPySpace = [] := by
    rw [List.dropWhile_eq_nil_iff]
    intro x hx
    exact (List.all_eq_true.mp h) x (List.mem_reverse.mp hx)
  rw [hnil]
  rfl

/-- C9: the verbatim (no leading newline) branch of the append rule needs
the existing summary to be exactly empty (or null/absent): a summary that
is non-empty but all whitespace is truthy, so the join branch runs and
the result is `rstrip(existing) + "\n" + lstrip(text)` =
`"\n" + lstrip(text)` — it begins with a newline — both in
`append_to_summary` and in upsert's append branch. -/
theorem C9_whitespace_only_summary (ast : J) (P : List Int) (s txt : String)
    (ref : _NodeRef)
    (htrav : _traverse ast P = .ok ref)
    (hne : s ≠ "")
    (hws : s.data.all isPySpace = true) :
    (ref.node.getPy "content_summary" = .str s →
      ∃ ast1, append_to_summary_op ast P txt = .ok (.accept ((), ast1)) ∧
        getNodeRoot ast1 P =
          .ok (ref.node.setField "content_summary"
            (.str ("\n" ++ lstripPy txt)))) ∧
    (∀ (T : String) (cs : List J) (hp : J) (i : Nat) (c : J),
      _get_children_list ref.node = .ok (cs, hp) →
      findTitleIndex T cs 0 = some i →
      cs[i]? = some c →
      c.getPy "content_summary" = .str s →
      ∃ ast1, upsert_child_by_title_op ast P T txt =
          .ok (.accept (("appended", P ++ [(i : Int)]), ast1)) ∧
        getNodeRoot ast1 P =
          .ok (hp.setField "children" (.arr (cs.set i
            (c.setField "content_summary" (.str ("\n" ++ lstripPy txt))))))) := by
  have hget : getNodeRoot ast P = .ok ref.node := by
    rw [← _traverse_node_eq, htrav]; rfl
  have hrefobj : ref.node.isObj = true := _traverse_isObj htrav
  have hjoin : rstripPy s ++ "\n" ++ lstripPy txt = "\n" ++ lstripPy txt := by
    rw [rstripPy_all_space hws]
    simp
  have hbne : (s != "") = true := by simp [bne, hne]
  constructor
  · intro hsum
    have hf : append_to_summary_body txt ref.node =
        .ok (.accept ((), ref.node.setField "content_summary"
          (.str ("\n" ++ lstripPy txt)))) := by
      rw [append_to_summary_body, hsum, pyStr_pyOr_str, hbne]
      rw [if_pos rfl, hjoin]
    have hobj : (ref.node.setField "content_summary"
        (.str ("\n" ++ lstripPy txt))).isObj = true := by
      rw [isObj_setField]; exact hrefobj
    obtain ⟨ast1, hm, hget1⟩ := modifyRoot_accept_full hget hf hobj
    exact ⟨ast1, hm, hget1⟩
  · intro T cs hp i c hgcl hfi hc hsum
    have hpobj : hp.isObj = true := _gcl_healed_obj hgcl
    have hf : upsert_body P T txt ref.node =
        .ok (.accept (("appended", P ++ [(i : Int)]),
          hp.setField "children" (.arr (cs.set i
            (c.setField "content_summary" (.str ("\n" ++ lstripPy txt))))))) := by
      rw [upsert_body, hgcl]
      dsimp only
      rw [hfi]
      dsimp only
      rw [hc]
      dsimp only
      rw [hsum, pyStr_pyOr_str, hbne]
      rw [if_pos rfl, hjoin]
    have hobj : (hp.setField "children" (.arr (cs.set i
        (c.setField "content_summary" (.str ("\n" ++ lstripPy txt)))))).isObj
        = true := by
      rw [isObj_setField]; exact hpobj
    obtain ⟨ast1, hm, hget1⟩ := modifyRoot_accept_full hget hf hobj
    exact ⟨ast1, hm, hget1⟩

/-- Witness for C9 at a concrete input: a node whose summary is `"  "`
(two spaces) gets `"\nnew"` after `append_to_summary "new"`, and a child
in the same state gets the same via upsert's append branch. -/
theorem C9_whitespace_only_summary_witness :
    (∃ ast1, append_to_summary_op
        (mkAst "d" (mkNode (.str "R") (.str "  ") [])) [] "new" =
        .ok (.accept ((), ast1)) ∧
      getNodeRoot ast1 [] = .ok (mkNode (.str "R") (.str "\nnew") [])) ∧
    (∃ ast1, upsert_child_by_title_op
        (mkAst "d" (mkNode (.str "R") (.str "") [mkNode (.str "A") (.str "  ") []]))
        [] "A" "new" =
        .ok (.accept (("appended", [0]), ast1)) ∧
      getNodeRoot ast1 [] =
        .ok (mkNode (.str "R") (.str "") [mkNode (.str "A") (.str "\nnew") []])) := by
  constructor
  · obtain ⟨ast1, hm, hg⟩ :=
      (C9_whitespace_only_summary (mkAst "d" (mkNode (.str "R") (.str "  ") []))
        [] "  " "new" ⟨mkNode (.str "R") (.str "  ") [], none, none⟩
        (by rfl) (by decide) (by decide)).1 (by rfl)
    exact ⟨ast1, hm, hg.trans (by rfl)⟩
  · obtain ⟨ast1, hm, hg⟩ :=
      (C9_whitespace_only_summary
        (mkAst "d" (mkNode (.str "R") (.str "") [mkNode (.str "A") (.str "  ") []]))
        [] "  " "new"
        ⟨mkNode (.str "R") (.str "") [mkNode (.str "A") (.str "  ") []], none, none⟩
        (by rfl) (by decide) (by decide)).2 "A"
        [mkNode (.str "A") (.str "  ") []]
        (mkNode (.str "R") (.str "") [mkNode (.str "A") (.str "  ") []])
        0 (mkNode (.str "A") (.str "  ") []) (by rfl) (by rfl) (by rfl) (by rfl)
    exact ⟨ast1, hm, hg.trans (by rfl)⟩

/-- The haystack `walk` tests a conforming node against: the node's title
(or `""` when falsy), lowercased unless the search is case-sensitive. -/
def hayWF (csens : Bool) (node : J) : String :=
  match pyOr (node.getPy "section_title") (.str "") with
  | .str t => if csens then t else lowerPy t
  | _ => ""

/-- Whether a node matches the (already case-normalised) query `q0`. -/
def nodeMatches (q0 : String) (csens : Bool) (node : J) : Bool :=
  strIn q0 (hayWF csens node)

theorem mkNode_getPy_title (st sm : J) (cs : List J) :
    (mkNode st sm cs).getPy "section_title" = st := by
  simp [mkNode, J.getPy, lookupJ]

theorem preorderSpec_mkNode (st sm : J) (cs : List J) (path : List Nat) :
    preorderSpec (mkNode st sm cs) path =
      (path, mkNode st sm cs) :: preorderChildren cs path 0 := by
  have hl : lookupJ [("section_title", st), ("content_summary", sm),
      ("children", J.arr cs)] "children" = some (J.arr cs) := by
    simp [lookupJ]
  show preorderSpec (J.obj [("section_title", st), ("content_summary", sm),
      ("children", J.arr cs)]) path = _
  rw [preorderSpec.eq_1, hl]
  rfl

theorem preorderChildren_cons (c : J) (rest : List J) (path : List Nat) (i : Nat) :
    preorderChildren (c :: rest) path i =
      preorderSpec c (path ++ [i]) ++ preorderChildren rest path (i + 1) := by
  rw [preorderChildren]

theorem hayOf_WF {node : J} (h : isWFTitle (node.getPy "section_title") = true)
    (csens : Bool) :
    hayOf csens (pyOr (node.getPy "section_title") (.str "")) =
      .ok (hayWF csens node) := by
  cases hst : node.getPy "section_title" with
  | null => cases csens <;> simp [pyOr, truthy, hayOf, hayWF, pyStr, lowerPy, hst]
  | str t =>
    by_cases ht : t = "" <;> cases csens <;>
      simp [pyOr, truthy, hayOf, hayWF, pyStr, hst, ht]
  | int n => rw [hst] at h; simp [isWFTitle] at h
  | bool b => rw [hst] at h; simp [isWFTitle] at h
  | arr xs => rw [hst] at h; simp [isWFTitle] at h
  | obj kvs => rw [hst] at h; simp [isWFTitle] at h

theorem take_append_cons {α : Type} (acc : List α) (m : α) (Y : List α) :
    (acc ++ (m :: Y)).take (acc.length + 1) = acc ++ [m] := by
  rw [show acc ++ (m :: Y) = (acc ++ [m]) ++ Y from by simp,
    show acc.length + 1 = (acc ++ [m]).length from by simp, List.take_left]

theorem take_append_take {α : Type} (n : Nat) (xs ys : List α) :
    ((xs.take n) ++ ys).take n = (xs ++ ys).take n := by
  by_cases h : xs.length ≤ n
  · rw [List.take_of_length_le h]
  · have h1 : n ≤ xs.length := by omega
    have h2 : n ≤ (xs.take n).length := by
      rw [List.length_take]; omega
    rw [List.take_append_of_le_length h1, List.take_append_of_le_length h2,
      List.take_take]
    simp

mutual
/-- What `walk` collects: everything already in the accumulator, then the
matches of the subtree in pre-order, truncated at the cap. -/
theorem walk_spec (q0 : String) (mr : Int) (csens : Bool) (node : J)
    (path : List Nat) (acc : List FMatch) (hwf : WF node)
    (hlen : (acc.length : Int) ≤ mr) :
    walk q0 mr csens node path acc = .ok ((acc ++
      ((preorderSpec node path).filter
        (fun pr : List Nat × J => nodeMatches q0 csens pr.2)).map
        (fun pr : List Nat × J =>
          (⟨pr.1, pr.2.getPy "section_title"⟩ : FMatch))).take mr.toNat) := by
  obtain ⟨st, sm, cs, hnode, hst, -, hcs⟩ := WF_elim hwf
  subst hnode
  rw [walk]
  by_cases hful : ((acc.length : Int) ≥ mr)
  · rw [if_pos hful]
    have hmr : mr.toNat = acc.length := by omega
    rw [hmr, List.take_left' rfl]
  · rw [if_neg hful]
    rw [hayOf_WF (by rw [mkNode_getPy_title]; exact hst) csens]
    dsimp only
    rw [preorderSpec_mkNode, List.filter_cons]
    by_cases hmatch : nodeMatches q0 csens (mkNode st sm cs) = true
    · have hm : strIn q0 (hayWF csens (mkNode st sm cs)) = true := hmatch
      rw [if_pos (show nodeMatches q0 csens ((path, mkNode st sm cs)).2 = true
        from hmatch)]
      rw [if_pos hm]
      rw [List.map_cons]
      dsimp only
      by_cases hcap : (((acc ++
          [(⟨path, (mkNode st sm cs).getPy "section_title"⟩ : FMatch)]).length
          : Int) ≥ mr)
      · have hcond : strIn q0 (hayWF csens (mkNode st sm cs)) = true ∧
            (((acc ++ [(⟨path, (mkNode st sm cs).getPy "section_title"⟩ :
              FMatch)]).length : Int) ≥ mr) := ⟨hm, hcap⟩
        rw [if_pos hcond]
        simp only [List.length_append, List.length_cons, List.length_nil] at hcap
        have hmr : mr.toNat = acc.length + 1 := by omega
        rw [hmr, take_append_cons]
      · have hcond : ¬ (strIn q0 (hayWF csens (mkNode st sm cs)) = true ∧
            (((acc ++ [(⟨path, (mkNode st sm cs).getPy "section_title"⟩ :
              FMatch)]).length : Int) ≥ mr)) := fun hh => hcap hh.2
        rw [if_neg hcond]
        rw [mkNode_gcl]
        dsimp only
        rw [walkChildren_spec q0 mr csens cs path 0
          (acc ++ [(⟨path, (mkNode st sm cs).getPy "section_title"⟩ : FMatch)])
          hcs
          (by simp only [List.length_append, List.length_cons,
            List.length_nil] at hcap ⊢; omega)]
        congr 1
        simp [List.append_assoc]
    · have hm : strIn q0 (hayWF csens (mkNode st sm cs)) = false := by
        simpa [nodeMatches] using hmatch
      rw [if_neg (show ¬ nodeMatches q0 csens ((path, mkNode st sm cs)).2 = true
        from hmatch)]
      rw [if_neg (show ¬ strIn q0 (hayWF csens (mkNode st sm cs)) = true
        from by simp [hm])]
      rw [if_neg (show ¬ (strIn q0 (hayWF csens (mkNode st sm cs)) = true ∧
        ((acc.length : Int) ≥ mr)) from fun hh => absurd hh.1 (by simp [hm]))]
      rw [mkNode_gcl]
      dsimp only
      rw [walkChildren_spec q0 mr csens cs path 0 acc hcs hlen]
termination_by sizeOf node
decreasing_by
  all_goals (subst hnode; simp [mkNode]; try omega)

/-- What the children loop collects, starting at child index `i`. -/
theorem walkChildren_spec (q0 : String) (mr : Int) (csens : Bool)
    (l : List J) (path : List Nat) (i : Nat) (acc : List FMatch)
    (hwf : ∀ c ∈ l, WF c) (hlen : (acc.length : Int) ≤ mr) :
    walkChildren q0 mr csens l path i acc = .ok ((acc ++
      ((preorderChildren l path i).filter
        (fun pr : List Nat × J => nodeMatches q0 csens pr.2)).map
        (fun pr : List Nat × J =>
          (⟨pr.1, pr.2.getPy "section_title"⟩ : FMatch))).take mr.toNat) := by
  match l with
  | [] =>
    rw [walkChildren, preorderChildren]
    simp only [List.filter_nil, List.map_nil, List.append_nil]
    rw [List.take_of_length_le (by omega)]
  | c :: rest =>
    have hwfc : WF c := hwf c (by simp)
    rw [walkChildren]
    rw [if_pos (WF_isObj hwfc)]
    rw [walk_spec q0 mr csens c (path ++ [i]) acc hwfc hlen]
    dsimp only
    rw [walkChildren_spec q0 mr csens rest path (i + 1) _
      (fun c hc => hwf c (by simp [hc]))
      (by rw [List.length_take]; omega)]
    rw [preorderChildren_cons, List.filter_append, List.map_append]
    rw [take_append_take]
    rw [List.append_assoc]
termination_by sizeOf l
decreasing_by
  all_goals (simp; try omega)
end

/-- C6: on a conforming tree, with a non-empty query and a cap of at
least 1, `_find_nodes_by_title` returns exactly the first
`min(cap, total-matches)` matching nodes in depth-first pre-order (node
before children, children in index order), each reported as its path and
title; with `max_results = 1` that is exactly the first match in
pre-order; an empty query returns an empty match list. -/
theorem C6_find_by_title (ast : J) (q : String) (mr : Int) (csens : Bool)
    (hwf : WF (ast.getPy "root")) (hq : q ≠ "") (hmr : 1 ≤ mr) :
    (_find_nodes_by_title ast q mr csens = .ok
      ((((preorderSpec (ast.getPy "root") []).filter
        (fun pr : List Nat × J =>
          nodeMatches (if csens then q else lowerPy q) csens pr.2)).map
        (fun pr : List Nat × J =>
          (⟨pr.1, pr.2.getPy "section_title"⟩ : FMatch))).take mr.toNat)) ∧
    (∀ res, _find_nodes_by_title ast q mr csens = .ok res →
      res.length = min mr.toNat (((preorderSpec (ast.getPy "root") []).filter
        (fun pr : List Nat × J =>
          nodeMatches (if csens then q else lowerPy q) csens pr.2)).length)) ∧
    _find_nodes_by_title ast "" mr csens = .ok [] := by
  obtain ⟨st, sm, cs, hroot, hst, hsm, hcs⟩ := WF_elim hwf
  have hroot' : ast.getPy "root" = J.obj [("section_title", st),
      ("content_summary", sm), ("children", J.arr cs)] := hroot
  have hastobj : ast.isObj = true := getPy_obj_src hroot'
  have hfirst : _find_nodes_by_title ast q mr csens = .ok
      ((((preorderSpec (ast.getPy "root") []).filter
        (fun pr : List Nat × J =>
          nodeMatches (if csens then q else lowerPy q) csens pr.2)).map
        (fun pr : List Nat × J =>
          (⟨pr.1, pr.2.getPy "section_title"⟩ : FMatch))).take mr.toNat) := by
    cases ast with
    | obj akvs =>
      have hlk : lookupJ akvs "root" = some (J.obj [("section_title", st),
          ("content_summary", sm), ("children", J.arr cs)]) := by
        simp only [J.getPy] at hroot'
        cases hl : lookupJ akvs "root" with
        | none => rw [hl] at hroot'; exact absurd hroot' (by simp)
        | some v =>
          rw [hl] at hroot'
          dsimp only at hroot'
          rw [hroot']
      rw [_find_nodes_by_title]
      rw [if_neg (show ¬ (q == "") = true from by simp [hq])]
      dsimp only
      rw [hlk]
      dsimp only
      rw [walk_spec (if csens = true then q else lowerPy q) mr csens
        (J.obj [("section_title", st), ("content_summary", sm),
          ("children", J.arr cs)]) [] []
        (by rw [← hroot']; exact hwf) (by simp; omega)]
      rw [hroot']
      simp only [List.nil_append]
    | null => simp [J.isObj] at hastobj
    | str s => simp [J.isObj] at hastobj
    | int n => simp [J.isObj] at hastobj
    | bool b => simp [J.isObj] at hastobj
    | arr xs => simp [J.isObj] at hastobj
  refine ⟨hfirst, ?_, ?_⟩
  · intro res hres
    rw [hfirst] at hres
    have : res = (((preorderSpec (ast.getPy "root") []).filter
        (fun pr : List Nat × J =>
          nodeMatches (if csens then q else lowerPy q) csens pr.2)).map
        (fun pr : List Nat × J =>
          (⟨pr.1, pr.2.getPy "section_title"⟩ : FMatch))).take mr.toNat := by
      simpa using hres.symm
    rw [this, List.length_take, List.length_map]
  · rw [_find_nodes_by_title]
    rw [if_pos (by simp)]

theorem preorderChildren_nil (path : List Nat) (i : Nat) :
    preorderChildren [] path i = [] := by
  rw [preorderChildren]

/-- Witness for C6 at a concrete input: a tree whose root and first child
both match query `"Intro"`; with cap 1 only the pre-order-first match (the
root) is returned, with cap 20 both are, and the empty query matches
nothing. -/
theorem C6_find_by_title_witness :
    _find_nodes_by_title
      (mkAst "d" (mkNode (.str "Intro") (.str "")
        [mkNode (.str "Intro A") (.str "") [], mkNode (.str "Other") (.str "") []]))
      "Intro" 1 true = .ok [⟨[], .str "Intro"⟩] ∧
    _find_nodes_by_title
      (mkAst "d" (mkNode (.str "Intro") (.str "")
        [mkNode (.str "Intro A") (.str "") [], mkNode (.str "Other") (.str "") []]))
      "Intro" 20 true = .ok [⟨[], .str "Intro"⟩, ⟨[0], .str "Intro A"⟩] ∧
    _find_nodes_by_title
      (mkAst "d" (mkNode (.str "Intro") (.str "")
        [mkNode (.str "Intro A") (.str "") [], mkNode (.str "Other") (.str "") []]))
      "" 20 true = .ok [] := by
  have hwfW : WF ((mkAst "d" (mkNode (.str "Intro") (.str "")
      [mkNode (.str "Intro A") (.str "") [],
        mkNode (.str "Other") (.str "") []])).getPy "root") := by
    show WF (mkNode (.str "Intro") (.str "")
      [mkNode (.str "Intro A") (.str "") [], mkNode (.str "Other") (.str "") []])
    refine WF.mk _ _ _ rfl rfl ?_
    intro c hc
    simp only [List.mem_cons, List.not_mem_nil, or_false] at hc
    rcases hc with rfl | rfl
    · exact WF.mk _ _ _ rfl rfl (by intro c hc; simp at hc)
    · exact WF.mk _ _ _ rfl rfl (by intro c hc; simp at hc)
  have h1 := (C6_find_by_title
    (mkAst "d" (mkNode (.str "Intro") (.str "")
      [mkNode (.str "Intro A") (.str "") [], mkNode (.str "Other") (.str "") []]))
    "Intro" 1 true hwfW (by decide) (by decide)).1
  have h2 := (C6_find_by_title
    (mkAst "d" (mkNode (.str "Intro") (.str "")
      [mkNode (.str "Intro A") (.str "") [], mkNode (.str "Other") (.str "") []]))
    "Intro" 20 true hwfW (by decide) (by decide)).1
  have h3 := (C6_find_by_title
    (mkAst "d" (mkNode (.str "Intro") (.str "")
      [mkNode (.str "Intro A") (.str "") [], mkNode (.str "Other") (.str "") []]))
    "Intro" 20 true hwfW (by decide) (by decide)).2.2
  have hrootW : (mkAst "d" (mkNode (.str "Intro") (.str "")
      [mkNode (.str "Intro A") (.str "") [],
        mkNode (.str "Other") (.str "") []])).getPy "root" =
      mkNode (.str "Intro") (.str "")
        [mkNode (.str "Intro A") (.str "") [],
          mkNode (.str "Other") (.str "") []] := rfl
  refine ⟨?_, ?_, h3⟩
  · rw [h1, hrootW]
    simp only [preorderSpec_mkNode, preorderChildren_cons, preorderChildren_nil]
    rfl
  · rw [h2, hrootW]
    simp only [preorderSpec_mkNode, preorderChildren_cons, preorderChildren_nil]
    rfl

/-- C10: the dispatcher clamps `max_results` to at least 1 before
searching: with a conforming tree, a non-empty query that matches at
least one node, and `max_results ≤ 0`, `find_by_title` still returns
exactly one match, never an empty list. -/
theorem C10_max_results_clamp (ast : J) (q : String) (mr : Int) (csens : Bool)
    (asp now : String)
    (hwf : WF (ast.getPy "root")) (hq : q ≠ "") (hmr : mr ≤ 0)
    (hmatch : ((preorderSpec (ast.getPy "root") []).filter
      (fun pr : List Nat × J =>
        nodeMatches (if csens then q else lowerPy q) csens pr.2)).isEmpty
      = false) :
    ∃ m : FMatch,
      ast_store ⟨"find_by_title", asp, none, none, "", none, none, none,
        none, none, none, some q, mr, csens⟩ now (some ast) =
      (okResp [("action", .str "find_by_title"), ("title_query", .str q),
        ("matches", .arr [matchToJ m])], some ast) := by
  obtain ⟨pr0, rest, hfil⟩ : ∃ pr0 rest,
      ((preorderSpec (ast.getPy "root") []).filter
        (fun pr : List Nat × J =>
          nodeMatches (if csens then q else lowerPy q) csens pr.2)) =
        pr0 :: rest := by
    cases hfil' : ((preorderSpec (ast.getPy "root") []).filter
        (fun pr : List Nat × J =>
          nodeMatches (if csens then q else lowerPy q) csens pr.2)) with
    | nil => rw [hfil'] at hmatch; simp at hmatch
    | cons a l => exact ⟨a, l, rfl⟩
  have hclamp : max 1 mr = 1 := by omega
  have h6 := (C6_find_by_title ast q 1 csens hwf hq (by omega)).1
  refine ⟨⟨pr0.1, pr0.2.getPy "section_title"⟩, ?_⟩
  rw [show ast_store ⟨"find_by_title", asp, none, none, "", none, none, none,
      none, none, none, some q, mr, csens⟩ now (some ast) =
      (match _find_nodes_by_title ast (pyOrS q "") (max 1 mr) csens with
       | .error e => (errResp e.toMessage, some ast)
       | .ok ms =>
         (okResp [("action", .str "find_by_title"),
           ("title_query", .str (pyOrS q "")),
           ("matches", .arr (ms.map matchToJ))], some ast)) from rfl]
  rw [pyOrS_empty_right, hclamp, h6, hfil]
  rfl

/-- Witness for C10 at a concrete input: `max_results = 0` on a tree with
two matches still yields exactly one match. -/
theorem C10_max_results_clamp_witness :
    ∃ m : FMatch,
      ast_store ⟨"find_by_title", "a.json", none, none, "", none, none, none,
        none, none, none, some "Intro", 0, true⟩ "t0"
        (some (mkAst "d" (mkNode (.str "Intro") (.str "")
          [mkNode (.str "Intro A") (.str "") [],
            mkNode (.str "Other") (.str "") []]))) =
      (okResp [("action", .str "find_by_title"), ("title_query", .str "Intro"),
        ("matches", .arr [matchToJ m])],
        some (mkAst "d" (mkNode (.str "Intro") (.str "")
          [mkNode (.str "Intro A") (.str "") [],
            mkNode (.str "Other") (.str "") []]))) := by
  apply C10_max_results_clamp
  · show WF (mkNode (.str "Intro") (.str "")
      [mkNode (.str "Intro A") (.str "") [], mkNode (.str "Other") (.str "") []])
    refine WF.mk _ _ _ rfl rfl ?_
    intro c hc
    simp only [List.mem_cons, List.not_mem_nil, or_false] at hc
    rcases hc with rfl | rfl
    · exact WF.mk _ _ _ rfl rfl (by intro c hc; simp at hc)
    · exact WF.mk _ _ _ rfl rfl (by intro c hc; simp at hc)
  · decide
  · decide
  · rw [show (mkAst "d" (mkNode (.str "Intro") (.str "")
        [mkNode (.str "Intro A") (.str "") [],
          mkNode (.str "Other") (.str "") []])).getPy "root" =
        mkNode (.str "Intro") (.str "")
          [mkNode (.str "Intro A") (.str "") [],
            mkNode (.str "Other") (.str "") []] from rfl]
    simp only [preorderSpec_mkNode, preorderChildren_cons, preorderChildren_nil]
    rfl

/-- A response is either a success (`{"ok": true, ...}`) or a failure
(`{"ok": false, "error": ...}`). -/
def respShape (r : J) : Prop :=
  (∃ fields, r = okResp fields) ∨ (∃ m, r = errResp m)

/-- C8: every call returns a structured result with an `ok` boolean, and
every failing call carries `ok = false` together with a human-readable
`error` string — the boundary converts every internal exception and every
validation failure into such a result, and the dispatcher is a total
function of its inputs (no input makes it raise). -/
theorem C8_uniform_results (a : Args) (now : String) (store : Option J) :
    ∃ b, ((ast_store a now store).1).getPy "ok" = .bool b ∧
      (b = false → ∃ m, ((ast_store a now store).1).getPy "error" = .str m) := by
  have hshape : respShape (ast_store a now store).1 := by
    rw [ast_store.eq_def]
    dsimp only
    repeat' split
    all_goals first
      | exact Or.inl ⟨_, rfl⟩
      | exact Or.inr ⟨_, rfl⟩
  rcases hshape with ⟨fields, hf⟩ | ⟨m, hf⟩
  · refine ⟨true, by rw [hf]; simp [okResp, J.getPy, lookupJ], ?_⟩
    intro h
    simp at h
  · refine ⟨false, by rw [hf]; simp [errResp, J.getPy, lookupJ], ?_⟩
    intro _
    exact ⟨m, by rw [hf]; simp [errResp, J.getPy, lookupJ]⟩

end ASTStore
